import Mathlib

/-!
# The Mapbox API client (`internal/provider/client.go`)

A shallow embedding of `Client.Do`, `Client.buildRequest`, `Client.checkAPIError`
and the verb helpers, together with the parts of the Go standard library whose
behaviour decides what they return: `encoding/json` decoding into the `Error`
struct, `net/url` parsing and query encoding, and `net/http` request construction.

Go strings and byte slices are sequences of bytes; they are modelled as lists of
natural numbers (`GoString`).  Effects are explicit: the response body is a value
carrying the data still to be read and whether it has been closed, and `Do`
reports the request it handed to the transport.
-/

namespace Mapbox

/-! ## Bytes, strings and UTF-8 -/

/-- A Go `string` (or `[]byte`): a sequence of bytes. -/
abbrev GoString := List Nat

/-- Go `utf8.AppendRune`: the UTF-8 encoding of a rune; surrogates and values
above `0x10FFFF` are encoded as `U+FFFD`. -/
def encodeRune (r : Nat) : GoString :=
  if r < 0x80 then [r]
  else if r < 0x800 then [0xC0 + r / 64, 0x80 + r % 64]
  else if 0xD800 ≤ r ∧ r < 0xE000 then [0xEF, 0xBF, 0xBD]
  else if r < 0x10000 then [0xE0 + r / 4096, 0x80 + r / 64 % 64, 0x80 + r % 64]
  else if r < 0x110000 then
    [0xF0 + r / 262144, 0x80 + r / 4096 % 64, 0x80 + r / 64 % 64, 0x80 + r % 64]
  else [0xEF, 0xBF, 0xBD]

/-- Go `utf8.DecodeRune`: the first rune of a byte sequence and its width; an
invalid or truncated encoding yields `(U+FFFD, 1)`, the empty input `(U+FFFD, 0)`. -/
def decodeRune : GoString → Nat × Nat
  | [] => (0xFFFD, 0)
  | b0 :: rest =>
    if b0 < 0x80 then (b0, 1)
    else if 0xC2 ≤ b0 ∧ b0 ≤ 0xDF then
      match rest with
      | b1 :: _ =>
        if 0x80 ≤ b1 ∧ b1 ≤ 0xBF then ((b0 - 0xC0) * 64 + (b1 - 0x80), 2) else (0xFFFD, 1)
      | [] => (0xFFFD, 1)
    else if 0xE0 ≤ b0 ∧ b0 ≤ 0xEF then
      match rest with
      | b1 :: b2 :: _ =>
        if (if b0 = 0xE0 then 0xA0 else 0x80) ≤ b1 ∧ b1 ≤ (if b0 = 0xED then 0x9F else 0xBF)
            ∧ 0x80 ≤ b2 ∧ b2 ≤ 0xBF then
          ((b0 - 0xE0) * 4096 + (b1 - 0x80) * 64 + (b2 - 0x80), 3)
        else (0xFFFD, 1)
      | _ => (0xFFFD, 1)
    else if 0xF0 ≤ b0 ∧ b0 ≤ 0xF4 then
      match rest with
      | b1 :: b2 :: b3 :: _ =>
        if (if b0 = 0xF0 then 0x90 else 0x80) ≤ b1 ∧ b1 ≤ (if b0 = 0xF4 then 0x8F else 0xBF)
            ∧ 0x80 ≤ b2 ∧ b2 ≤ 0xBF ∧ 0x80 ≤ b3 ∧ b3 ≤ 0xBF then
          ((b0 - 0xF0) * 262144 + (b1 - 0x80) * 4096 + (b2 - 0x80) * 64 + (b3 - 0x80), 4)
        else (0xFFFD, 1)
      | _ => (0xFFFD, 1)
    else (0xFFFD, 1)

/-- The bytes of a sequence of Unicode characters (its UTF-8 encoding). -/
def encodeChars : List Char → GoString
  | [] => []
  | c :: cs => encodeRune c.toNat ++ encodeChars cs

/-- The Go string written by a source-level string literal. -/
def str (s : String) : GoString := encodeChars s.data

/-! ## `encoding/json`: syntax -/

/-- A parsed JSON value.  Numbers keep their literal text, strings and member
names are held unquoted. -/
inductive JValue where
  | null
  | bool (b : Bool)
  | num (lit : GoString)
  | str (s : GoString)
  | arr (elems : List JValue)
  | obj (members : List (GoString × JValue))

/-- The scanner's `isSpace`: space, tab, carriage return, line feed. -/
def isSpace (c : Nat) : Bool := c == 0x20 || c == 0x09 || c == 0x0D || c == 0x0A

/-- Skip insignificant white space. -/
def skipWS : GoString → GoString
  | [] => []
  | c :: s => if isSpace c then skipWS s else c :: s

/-- Value of a hexadecimal digit (`0-9`, `a-f`, `A-F`). -/
def unhex (c : Nat) : Option Nat :=
  if 0x30 ≤ c ∧ c ≤ 0x39 then some (c - 0x30)
  else if 0x61 ≤ c ∧ c ≤ 0x66 then some (c - 0x61 + 10)
  else if 0x41 ≤ c ∧ c ≤ 0x46 then some (c - 0x41 + 10)
  else none

/-- Go `getu4`: the code unit of a leading `\uXXXX` escape, if there is one. -/
def getu4 : GoString → Option Nat
  | b :: u :: h1 :: h2 :: h3 :: h4 :: _ =>
    if b = 0x5C ∧ u = 0x75 then
      match unhex h1, unhex h2, unhex h3, unhex h4 with
      | some a, some b, some c, some d => some (a * 4096 + b * 256 + c * 16 + d)
      | _, _, _, _ => none
    else none
  | _ => none

/-- Go `utf16.IsSurrogate`. -/
def isSurrogate (r : Nat) : Bool := 0xD800 ≤ r && r < 0xE000

/-- Go `utf16.DecodeRune`: the rune of a surrogate pair, `U+FFFD` if it is not one. -/
def utf16DecodeRune (r1 r2 : Nat) : Nat :=
  if 0xD800 ≤ r1 ∧ r1 < 0xDC00 ∧ 0xDC00 ≤ r2 ∧ r2 < 0xE000 then
    (r1 - 0xD800) * 1024 + (r2 - 0xDC00) + 0x10000
  else 0xFFFD

/-- The byte denoted by a one-character escape the scanner accepts. -/
def simpleEscape (e : Nat) : Option Nat :=
  if e = 0x22 then some 0x22        -- \"
  else if e = 0x5C then some 0x5C   -- \\
  else if e = 0x2F then some 0x2F   -- \/
  else if e = 0x62 then some 0x08   -- \b
  else if e = 0x66 then some 0x0C   -- \f
  else if e = 0x6E then some 0x0A   -- \n
  else if e = 0x72 then some 0x0D   -- \r
  else if e = 0x74 then some 0x09   -- \t
  else none

/-- Prepend decoded bytes to the result of scanning the remainder. -/
def emit (out : GoString) (r : Option (GoString × GoString)) : Option (GoString × GoString) :=
  r.map fun p => (out ++ p.1, p.2)

/-- Scan a JSON string literal after its opening quote and unquote it (the
scanner's string states followed by `unquoteBytes`): returns the decoded bytes
and the input after the closing quote.  `skip` bytes of input have already been
interpreted and are passed over.  Control bytes and unknown escapes are syntax
errors; raw bytes that are not well-formed UTF-8 are coerced to `U+FFFD`, as is
a `\u` escape that is an unpaired surrogate. -/
def unquoteFrom : Nat → GoString → Option (GoString × GoString)
  | _, [] => none
  | skip + 1, _ :: s => unquoteFrom skip s
  | 0, c :: s =>
    if c = 0x22 then some ([], s)
    else if c = 0x5C then
      match s with
      | [] => none
      | e :: _ =>
        if e = 0x75 then
          match getu4 (c :: s) with
          | none => none
          | some rr =>
            if isSurrogate rr then
              match getu4 (s.drop 5) with
              | some rr1 =>
                if utf16DecodeRune rr rr1 ≠ 0xFFFD then
                  emit (encodeRune (utf16DecodeRune rr rr1)) (unquoteFrom 11 s)
                else emit (encodeRune 0xFFFD) (unquoteFrom 5 s)
              | none => emit (encodeRune 0xFFFD) (unquoteFrom 5 s)
            else emit (encodeRune rr) (unquoteFrom 5 s)
        else
          match simpleEscape e with
          | some b => emit [b] (unquoteFrom 1 s)
          | none => none
    else if c < 0x20 then none
    else if c < 0x80 then emit [c] (unquoteFrom 0 s)
    else emit (encodeRune (decodeRune (c :: s)).1) (unquoteFrom ((decodeRune (c :: s)).2 - 1) s)

/-- Is the byte an ASCII decimal digit. -/
def isDigit (c : Nat) : Bool := 0x30 ≤ c && c ≤ 0x39

/-- Split off the longest prefix of decimal digits. -/
def spanDigits : GoString → GoString × GoString
  | [] => ([], [])
  | c :: s => if isDigit c then ((spanDigits s).1.cons c, (spanDigits s).2) else ([], c :: s)

/-- Optional exponent part of a number: `e` or `E`, an optional sign, digits. -/
def scanExp (s : GoString) : Option (GoString × GoString) :=
  match s with
  | e :: s1 =>
    if e = 0x65 ∨ e = 0x45 then
      match s1 with
      | g :: s2 =>
        if g = 0x2B ∨ g = 0x2D then
          if (spanDigits s2).1 = [] then none
          else some (e :: g :: (spanDigits s2).1, (spanDigits s2).2)
        else if (spanDigits s1).1 = [] then none
        else some (e :: (spanDigits s1).1, (spanDigits s1).2)
      | [] => none
    else some ([], s)
  | [] => some ([], s)

/-- Optional fraction part of a number: `.` and at least one digit. -/
def scanFrac (s : GoString) : Option (GoString × GoString) :=
  match s with
  | d :: s1 =>
    if d = 0x2E then
      if (spanDigits s1).1 = [] then none
      else some (d :: (spanDigits s1).1, (spanDigits s1).2)
    else some ([], s)
  | [] => some ([], s)

/-- Integer part of a number: `0`, or a non-zero digit followed by digits. -/
def scanInt (s : GoString) : Option (GoString × GoString) :=
  match s with
  | c :: s1 =>
    if c = 0x30 then some ([c], s1)
    else if 0x31 ≤ c ∧ c ≤ 0x39 then some (c :: (spanDigits s1).1, (spanDigits s1).2)
    else none
  | [] => none

/-- Scan a JSON number literal (the scanner's number states): its text and the
remaining input. -/
def scanNumber (s : GoString) : Option (GoString × GoString) :=
  let sign : GoString := match s with
    | c :: _ => if c = 0x2D then [c] else []
    | [] => []
  match scanInt (s.drop sign.length) with
  | none => none
  | some (ip, r1) =>
    match scanFrac r1 with
    | none => none
    | some (fp, r2) =>
      match scanExp r2 with
      | none => none
      | some (ep, r3) => some (sign ++ ip ++ fp ++ ep, r3)

/-- If `s` starts with `pre`, the remainder. -/
def stripPrefix : GoString → GoString → Option GoString
  | [], s => some s
  | _ :: _, [] => none
  | p :: ps, c :: s => if p = c then stripPrefix ps s else none

/-- The scanner's `maxNestingDepth`. -/
def maxNestingDepth : Nat := 10000

mutual
/-- Parse one JSON value at the head of the input (no leading white space),
inside `depth` enclosing arrays and objects. -/
def parseValue : Nat → Nat → GoString → Option (JValue × GoString)
  | 0, _, _ => none
  | _ + 1, _, [] => none
  | fuel + 1, depth, c :: s =>
    if c = 0x7B then
      if maxNestingDepth ≤ depth then none
      else
        match skipWS s with
        | [] => none
        | d :: s1 =>
          if d = 0x7D then some (JValue.obj [], s1)
          else (parseMembers fuel (depth + 1) (d :: s1)).map fun p => (JValue.obj p.1, p.2)
    else if c = 0x5B then
      if maxNestingDepth ≤ depth then none
      else
        match skipWS s with
        | [] => none
        | d :: s1 =>
          if d = 0x5D then some (JValue.arr [], s1)
          else (parseElems fuel (depth + 1) (d :: s1)).map fun p => (JValue.arr p.1, p.2)
    else if c = 0x22 then (unquoteFrom 0 s).map fun p => (JValue.str p.1, p.2)
    else if c = 0x2D ∨ isDigit c then (scanNumber (c :: s)).map fun p => (JValue.num p.1, p.2)
    else if c = 0x74 then (stripPrefix [0x72, 0x75, 0x65] s).map fun r => (JValue.bool true, r)
    else if c = 0x66 then
      (stripPrefix [0x61, 0x6C, 0x73, 0x65] s).map fun r => (JValue.bool false, r)
    else if c = 0x6E then (stripPrefix [0x75, 0x6C, 0x6C] s).map fun r => (JValue.null, r)
    else none
/-- Parse the members of a non-empty object up to and including its `}`. -/
def parseMembers : Nat → Nat → GoString → Option (List (GoString × JValue) × GoString)
  | 0, _, _ => none
  | _ + 1, _, [] => none
  | fuel + 1, depth, q :: s =>
    if q = 0x22 then
      match unquoteFrom 0 s with
      | none => none
      | some (key, s1) =>
        match skipWS s1 with
        | [] => none
        | colon :: s2 =>
          if colon = 0x3A then
            match parseValue fuel depth (skipWS s2) with
            | none => none
            | some (v, s3) =>
              match skipWS s3 with
              | [] => none
              | d :: s4 =>
                if d = 0x2C then
                  (parseMembers fuel depth (skipWS s4)).map fun p => ((key, v) :: p.1, p.2)
                else if d = 0x7D then some ([(key, v)], s4)
                else none
          else none
    else none
/-- Parse the elements of a non-empty array up to and including its `]`. -/
def parseElems : Nat → Nat → GoString → Option (List JValue × GoString)
  | 0, _, _ => none
  | fuel + 1, depth, s =>
    match parseValue fuel depth s with
    | none => none
    | some (v, s1) =>
      match skipWS s1 with
      | [] => none
      | d :: s2 =>
        if d = 0x2C then (parseElems fuel depth (skipWS s2)).map fun p => (v :: p.1, p.2)
        else if d = 0x5D then some ([v], s2)
        else none
end

/-- The whole input as one JSON value, surrounded by optional white space
(`checkValid` followed by the decoder's walk); `none` is a syntax error. -/
def parseJSON (data : GoString) : Option JValue :=
  match parseValue (2 * data.length + 2) 0 (skipWS data) with
  | none => none
  | some (v, rest) => if skipWS rest = [] then some v else none

/-! ## `encoding/json`: decoding into `Error` -/

/-- The anonymous struct type of the field `Error.APIError`. -/
structure APIErrorBody where
  Message : GoString
deriving DecidableEq, Repr

/-- The struct `Error`: the decoded error envelope together with the status code
and endpoint of the failed call. -/
structure Error where
  APIError : APIErrorBody
  /-- The Go field `Type` (a reserved word here). -/
  Type_ : GoString
  StatusCode : Int
  Endpoint : GoString
deriving DecidableEq, Repr

/-- Go error values, as far as the client distinguishes them. -/
inductive GoErr where
  /-- An error value made by a library or by `errors.New`. -/
  | lib (msg : String)
  /-- The result of `fmt.Errorf` with one `%w` verb: the text before, the wrapped
  error, the text after. -/
  | wrapped (before : GoString) (inner : GoErr) (after : GoString)
  /-- A value of type `Error` used as an `error`. -/
  | api (e : Error)
deriving DecidableEq, Repr

/-- Equality of results of fallible calls is decidable. -/
instance decEqExcept {ε α : Type} [DecidableEq ε] [DecidableEq α] : DecidableEq (Except ε α)
  | Except.ok a, Except.ok b =>
    if h : a = b then isTrue (by rw [h]) else isFalse (fun h1 => by cases h1; exact h rfl)
  | Except.error a, Except.error b =>
    if h : a = b then isTrue (by rw [h]) else isFalse (fun h1 => by cases h1; exact h rfl)
  | Except.ok _, Except.error _ => isFalse (fun h1 => by cases h1)
  | Except.error _, Except.ok _ => isFalse (fun h1 => by cases h1)

/-- Is the error value of dynamic type `Error`. -/
def GoErr.isAPIError : GoErr → Bool
  | GoErr.api _ => true
  | _ => false

/-- The smallest rune of the simple case-folding orbit of `r`.  The two orbits
of non-ASCII runes that contain an ASCII letter are tabulated (`U+017F` with
`S`, `U+212A` with `K`); every other non-ASCII rune folds to a non-ASCII rune
and is left as it is, which gives the same matches against ASCII field names. -/
def foldRune (r : Nat) : Nat :=
  if r = 0x17F then 0x53 else if r = 0x212A then 0x4B else r

/-- Go `foldName`: ASCII letters are upper-cased, other runes are replaced by
`foldRune`.  `skip` bytes belong to a rune already folded. -/
def foldNameFrom : Nat → GoString → GoString
  | _, [] => []
  | skip + 1, _ :: s => foldNameFrom skip s
  | 0, c :: s =>
    if c < 0x80 then (if 0x61 ≤ c ∧ c ≤ 0x7A then c - 0x20 else c) :: foldNameFrom 0 s
    else encodeRune (foldRune (decodeRune (c :: s)).1)
      ++ foldNameFrom ((decodeRune (c :: s)).2 - 1) s

/-- Go `foldName`. -/
def foldName (s : GoString) : GoString := foldNameFrom 0 s

/-- The struct field a JSON member name selects: the field with exactly that
name, else the first field whose folded name equals the folded member name. -/
def lookupField {α : Type} (fields : List (GoString × α)) (key : GoString) : Option α :=
  match fields.find? (fun f => decide (f.1 = key)) with
  | some f => some f.2
  | none => (fields.find? (fun f => decide (foldName f.1 = foldName key))).map fun f => f.2

/-- The fields of `Error` that `encoding/json` sees. -/
inductive ErrorField where
  | apiError | type | statusCode | endpoint
deriving DecidableEq, Repr

/-- The JSON name of a field of `Error`: the tags `error` and `type`, and the Go
names of the two untagged exported fields. -/
def ErrorField.name : ErrorField → GoString
  | ErrorField.apiError => str "error"
  | ErrorField.type => str "type"
  | ErrorField.statusCode => str "StatusCode"
  | ErrorField.endpoint => str "Endpoint"

/-- JSON names of the fields of `Error`: the tags `error` and `type`, and the Go
names of the two untagged exported fields. -/
def errorFields : List (GoString × ErrorField) :=
  [(str "error", ErrorField.apiError), (str "type", ErrorField.type),
   (str "StatusCode", ErrorField.statusCode), (str "Endpoint", ErrorField.endpoint)]

/-- JSON names of the fields of the nested struct: the tag `message`. -/
def apiErrorBodyFields : List (GoString × Unit) := [(str "message", ())]

/-- Value of a non-empty sequence of decimal digits. -/
def parseDigits : GoString → Option Nat
  | [] => none
  | s => if s.all isDigit then some (s.foldl (fun n c => n * 10 + (c - 0x30)) 0) else none

/-- Go `strconv.ParseInt(s, 10, 64)`. -/
def parseInt64 (s : GoString) : Option Int :=
  match s with
  | [] => none
  | c :: r =>
    match parseDigits (if c = 0x2B ∨ c = 0x2D then r else s) with
    | none => none
    | some n =>
      if c = 0x2D then (if n ≤ 2 ^ 63 then some (-(n : Int)) else none)
      else if n < 2 ^ 63 then some (n : Int) else none

/-- Store a JSON value into a `string`: a string is stored, `null` leaves the
field alone, anything else is a type error (flag `true`) and leaves it alone. -/
def storeString (v : JValue) (cur : GoString) : GoString × Bool :=
  match v with
  | JValue.str s => (s, false)
  | JValue.null => (cur, false)
  | _ => (cur, true)

/-- Store a JSON value into an `int` (64 bits): a number literal that
`ParseInt` accepts is stored, `null` is ignored, anything else is a type error. -/
def storeInt (v : JValue) (cur : Int) : Int × Bool :=
  match v with
  | JValue.num lit =>
    match parseInt64 lit with
    | some n => (n, false)
    | none => (cur, true)
  | JValue.null => (cur, false)
  | _ => (cur, true)

/-- Store one member of the nested object. -/
def storeBodyMember (acc : APIErrorBody × Bool) (m : GoString × JValue) : APIErrorBody × Bool :=
  match lookupField apiErrorBodyFields m.1 with
  | some () => ({ Message := (storeString m.2 acc.1.Message).1 },
      acc.2 || (storeString m.2 acc.1.Message).2)
  | none => acc

/-- Store a JSON value into the nested struct: the members of an object are
stored in order, `null` is ignored, anything else is a type error. -/
def storeAPIErrorBody (v : JValue) (cur : APIErrorBody) : APIErrorBody × Bool :=
  match v with
  | JValue.obj ms => ms.foldl storeBodyMember (cur, false)
  | JValue.null => (cur, false)
  | _ => (cur, true)

/-- Store one member of the top-level object; members that select no field are
skipped. -/
def storeMember (acc : Error × Bool) (m : GoString × JValue) : Error × Bool :=
  match lookupField errorFields m.1 with
  | some ErrorField.apiError =>
    ({ acc.1 with APIError := (storeAPIErrorBody m.2 acc.1.APIError).1 },
      acc.2 || (storeAPIErrorBody m.2 acc.1.APIError).2)
  | some ErrorField.type =>
    ({ acc.1 with Type_ := (storeString m.2 acc.1.Type_).1 },
      acc.2 || (storeString m.2 acc.1.Type_).2)
  | some ErrorField.statusCode =>
    ({ acc.1 with StatusCode := (storeInt m.2 acc.1.StatusCode).1 },
      acc.2 || (storeInt m.2 acc.1.StatusCode).2)
  | some ErrorField.endpoint =>
    ({ acc.1 with Endpoint := (storeString m.2 acc.1.Endpoint).1 },
      acc.2 || (storeString m.2 acc.1.Endpoint).2)
  | none => acc

/-- Store a JSON value into an `Error`: the second component tells whether a
type error was met (decoding goes on after one). -/
def storeError (v : JValue) (cur : Error) : Error × Bool :=
  match v with
  | JValue.obj ms => ms.foldl storeMember (cur, false)
  | JValue.null => (cur, false)
  | _ => (cur, true)

/-- Go `json.Unmarshal(data, &e)`: on a syntax error `e` is untouched; otherwise
the value is stored and the first type error, if any, is returned. -/
def unmarshal (data : GoString) (e : Error) : Error × Option GoErr :=
  match parseJSON data with
  | none => (e, some (GoErr.lib "json: syntax error"))
  | some v =>
    ((storeError v e).1,
      if (storeError v e).2 then some (GoErr.lib "json: cannot unmarshal value into Go field")
      else none)

/-- Decimal digits of a natural number, most significant first. -/
def decimal (n : Nat) : GoString := (Nat.toDigits 10 n).map Char.toNat

/-- The verb `%d` applied to an `int`. -/
def formatInt (i : Int) : GoString :=
  match i with
  | Int.ofNat n => decimal n
  | Int.negSucc n => 0x2D :: decimal (n + 1)

/-- The method `Error.Error`: `fmt.Sprintf("API Error: %d %s %s", ...)`. -/
def Error.Error (e : Error) : GoString :=
  str "API Error: " ++ formatInt e.StatusCode ++ str " " ++ e.Endpoint ++ str " "
    ++ e.APIError.Message

/-! ## `net/url` -/

/-- Go `strings.Cut` for a one-byte separator: the text before the first
occurrence, the text after it, and whether it occurs. -/
def cut (sep : Nat) : GoString → GoString × GoString × Bool
  | [] => ([], [], false)
  | c :: s =>
    if c = sep then ([], s, true)
    else (c :: (cut sep s).1, (cut sep s).2.1, (cut sep s).2.2)

/-- The pieces of a string between occurrences of a one-byte separator. -/
def splitOn (sep : Nat) : GoString → List GoString
  | [] => [[]]
  | c :: s =>
    if c = sep then [] :: splitOn sep s
    else
      match splitOn sep s with
      | h :: t => (c :: h) :: t
      | [] => [[c]]

/-- The escaping modes of `net/url` that occur when an absolute URL with a
registered-name authority is parsed and its query is rewritten. -/
inductive Encoding where
  | path | host | queryComponent | fragment
deriving DecidableEq, Repr

/-- ASCII letter or digit. -/
def isAlnum (c : Nat) : Bool :=
  (0x61 ≤ c && c ≤ 0x7A) || (0x41 ≤ c && c ≤ 0x5A) || (0x30 ≤ c && c ≤ 0x39)

/-- Go `shouldEscape`. -/
def shouldEscape (c : Nat) (mode : Encoding) : Bool :=
  if isAlnum c then false
  else if mode = Encoding.host ∧ c ∈ [0x21, 0x24, 0x26, 0x27, 0x28, 0x29, 0x2A, 0x2B, 0x2C,
      0x3B, 0x3D, 0x3A, 0x5B, 0x5D, 0x3C, 0x3E, 0x22] then false
  else if c ∈ [0x2D, 0x5F, 0x2E, 0x7E] then false
  else if c ∈ [0x24, 0x26, 0x2B, 0x2C, 0x2F, 0x3A, 0x3B, 0x3D, 0x3F, 0x40] then
    match mode with
    | Encoding.path => c == 0x3F
    | Encoding.queryComponent => true
    | Encoding.fragment => false
    | Encoding.host => true
  else if mode = Encoding.fragment ∧ c ∈ [0x21, 0x28, 0x29, 0x2A] then false
  else true

/-- Upper-case hexadecimal digit of a value below sixteen (`"0123456789ABCDEF"[d]`). -/
def upperhex (d : Nat) : Nat := if d < 10 then 0x30 + d else 0x41 + (d - 10)

/-- Go `escape`: percent-encode the bytes `shouldEscape` selects; in a query
component a space is written `+`. -/
def escape (mode : Encoding) : GoString → GoString
  | [] => []
  | c :: s =>
    if c = 0x20 ∧ mode = Encoding.queryComponent then 0x2B :: escape mode s
    else if shouldEscape c mode then 0x25 :: upperhex (c / 16) :: upperhex (c % 16) :: escape mode s
    else c :: escape mode s

/-- Go `QueryEscape`. -/
def queryEscape (s : GoString) : GoString := escape Encoding.queryComponent s

/-- Go `unescape`: decode percent escapes (and `+` in a query component); fails
on a `%` not followed by two hexadecimal digits and, in a host, on an escape of
an ASCII byte other than `%25` or on a byte a host may not contain. -/
def unescape (mode : Encoding) : GoString → Option GoString
  | [] => some []
  | c :: s =>
    if c = 0x25 then
      match s with
      | h1 :: h2 :: s2 =>
        match unhex h1, unhex h2 with
        | some a, some b =>
          if mode = Encoding.host ∧ a < 8 ∧ ¬ (h1 = 0x32 ∧ h2 = 0x35) then none
          else (unescape mode s2).map fun t => (a * 16 + b) :: t
        | _, _ => none
      | _ => none
    else if c = 0x2B ∧ mode = Encoding.queryComponent then
      (unescape mode s).map fun t => 0x20 :: t
    else if mode = Encoding.host ∧ c < 0x80 ∧ shouldEscape c Encoding.host then none
    else (unescape mode s).map fun t => c :: t

/-- Go `QueryUnescape`. -/
def queryUnescape (s : GoString) : Option GoString := unescape Encoding.queryComponent s

/-- The type `url.URL`, with the fields set when an absolute URL with a
registered-name authority is parsed. -/
structure URL where
  Scheme : GoString
  Opaque : GoString
  Host : GoString
  Path : GoString
  ForceQuery : Bool
  RawQuery : GoString
  Fragment : GoString
deriving DecidableEq, Repr

/-- Result of looking for a scheme at the start of a URL. -/
inductive SchemeScan where
  | missing
  | absent
  | found (scheme rest : GoString)
deriving DecidableEq, Repr

/-- ASCII letter. -/
def isAlpha (c : Nat) : Bool := (0x61 ≤ c && c ≤ 0x7A) || (0x41 ≤ c && c ≤ 0x5A)

/-- The loop of Go `getScheme`; `first` tells whether the byte is the first one. -/
def scanScheme (first : Bool) : GoString → SchemeScan
  | [] => SchemeScan.absent
  | c :: s =>
    if isAlpha c ∨ (¬ first ∧ (isDigit c ∨ c = 0x2B ∨ c = 0x2D ∨ c = 0x2E)) then
      match scanScheme false s with
      | SchemeScan.found scheme rest => SchemeScan.found (c :: scheme) rest
      | r => r
    else if c = 0x3A then (if first then SchemeScan.missing else SchemeScan.found [] s)
    else SchemeScan.absent

/-- Go `strings.ToLower` on ASCII text. -/
def toLower (s : GoString) : GoString :=
  s.map fun c => if 0x41 ≤ c ∧ c ≤ 0x5A then c + 0x20 else c

/-- Go `stringContainsCTLByte`. -/
def containsCTLByte (s : GoString) : Bool := s.any fun b => b < 0x20 || b == 0x7F

/-- Go `parseAuthority` for an authority that is a registered name.  User
information, ports and IP literals never occur in the authority of
`MapBoxEndpoint`, which is the only one `Do` has parsed (`parseURL_MapBoxEndpoint`);
the model does not describe them and reports them as an error. -/
def parseAuthority (authority : GoString) : Except GoErr GoString :=
  if 0x40 ∈ authority ∨ 0x3A ∈ authority ∨ authority.head? = some 0x5B then
    Except.error (GoErr.lib "net/url: authority form outside the model")
  else
    match unescape Encoding.host authority with
    | some host => Except.ok host
    | none => Except.error (GoErr.lib "net/url: invalid host")

/-- The last steps of Go `url.parse`: what follows the scheme and precedes the
query is an opaque text, or an optional authority followed by a path. -/
def parseHierarchy (scheme rest : GoString) (force : Bool) (rawQuery : GoString) :
    Except GoErr URL :=
  if rest.head? ≠ some 0x2F ∧ scheme ≠ [] then
    Except.ok { Scheme := scheme, Opaque := rest, Host := [], Path := [],
                ForceQuery := force, RawQuery := rawQuery, Fragment := [] }
  else if rest.head? ≠ some 0x2F ∧ 0x3A ∈ (cut 0x2F rest).1 then
    Except.error (GoErr.lib "first path segment in URL cannot contain colon")
  else
    let hasAuthority : Bool :=
      (scheme ≠ [] || (rest.take 3 ≠ [0x2F, 0x2F, 0x2F])) && rest.take 2 = [0x2F, 0x2F]
    let authority : GoString := if hasAuthority then (cut 0x2F (rest.drop 2)).1 else []
    let path : GoString :=
      if hasAuthority then
        (if (cut 0x2F (rest.drop 2)).2.2 then 0x2F :: (cut 0x2F (rest.drop 2)).2.1 else [])
      else rest
    match (if hasAuthority then parseAuthority authority else Except.ok []) with
    | Except.error e => Except.error e
    | Except.ok host =>
      match unescape Encoding.path path with
      | none => Except.error (GoErr.lib "invalid URL escape")
      | some p =>
        Except.ok { Scheme := scheme, Opaque := [], Host := host, Path := p,
                    ForceQuery := force, RawQuery := rawQuery, Fragment := [] }

/-- The query split of Go `url.parse`: a single `?` that ends the text only
forces an empty query, otherwise the text is cut at its first `?`. -/
def parseAfterScheme (scheme rest : GoString) : Except GoErr URL :=
  if rest.getLast? = some 0x3F ∧ rest.count 0x3F = 1 then
    parseHierarchy scheme rest.dropLast true []
  else parseHierarchy scheme (cut 0x3F rest).1 false (cut 0x3F rest).2.1

/-- Go `url.parse(rawURL, false)`: a URL without fragment. -/
def parseNoFragment (rawURL : GoString) : Except GoErr URL :=
  if containsCTLByte rawURL then
    Except.error (GoErr.lib "net/url: invalid control character in URL")
  else if rawURL = [0x2A] then
    Except.ok { Scheme := [], Opaque := [], Host := [], Path := [0x2A], ForceQuery := false,
                RawQuery := [], Fragment := [] }
  else
    match scanScheme true rawURL with
    | SchemeScan.missing => Except.error (GoErr.lib "missing protocol scheme")
    | SchemeScan.found scheme rest => parseAfterScheme (toLower scheme) rest
    | SchemeScan.absent => parseAfterScheme [] rawURL

/-- Go `url.Parse`: the fragment is cut off at the first `#`, the rest is parsed,
then the fragment is unescaped. -/
def parseURL (rawURL : GoString) : Except GoErr URL :=
  match parseNoFragment (cut 0x23 rawURL).1 with
  | Except.error e => Except.error (GoErr.wrapped (str "parse: ") e [])
  | Except.ok u =>
    if (cut 0x23 rawURL).2.1 = [] then Except.ok u
    else
      match unescape Encoding.fragment (cut 0x23 rawURL).2.1 with
      | none => Except.error (GoErr.wrapped (str "parse: ") (GoErr.lib "invalid URL escape") [])
      | some frag => Except.ok { u with Fragment := frag }

/-- The type `url.Values` (`map[string][]string`): an association list with
distinct keys. -/
abbrev Values := List (GoString × List GoString)

/-- Go `Values.Add`: append the value to the values of the key. -/
def Values.Add : Values → GoString → GoString → Values
  | [], key, value => [(key, [value])]
  | (k, vs) :: rest, key, value =>
    if k = key then (k, vs ++ [value]) :: rest else (k, vs) :: Values.Add rest key value

/-- One step of the loop of Go `parseQuery`: a piece between `&` is skipped if it
contains a semicolon, is empty, or if its key or value does not unescape. -/
def parseQueryStep (m : Values) (piece : GoString) : Values :=
  if 0x3B ∈ piece then m
  else if piece = [] then m
  else
    match queryUnescape (cut 0x3D piece).1, queryUnescape (cut 0x3D piece).2.1 with
    | some key, some value => Values.Add m key value
    | _, _ => m

/-- The method `URL.Query`: `ParseQuery` of the raw query, malformed pairs being
silently discarded. -/
def parseQuery (query : GoString) : Values := (splitOn 0x26 query).foldl parseQueryStep []

/-- Go string order `a <= b`: byte-wise lexicographic. -/
def strLE : GoString → GoString → Bool
  | [], _ => true
  | _ :: _, [] => false
  | x :: a, y :: b => x < y || (x == y && strLE a b)

/-- Insert an entry into a list of entries ordered by key. -/
def insertEntry (e : GoString × List GoString) : Values → Values
  | [] => [e]
  | f :: rest => if strLE e.1 f.1 then e :: f :: rest else f :: insertEntry e rest

/-- The entries of a map in the order of their keys (`slices.Sort(keys)`). -/
def sortEntries : Values → Values
  | [] => []
  | e :: rest => insertEntry e (sortEntries rest)

/-- The `key=value` pairs `Values.Encode` writes for one key. -/
def encodeEntry (e : GoString × List GoString) : List GoString :=
  e.2.map fun v => queryEscape e.1 ++ 0x3D :: queryEscape v

/-- Join pieces with `&`. -/
def joinAmp : List GoString → GoString
  | [] => []
  | [p] => p
  | p :: q :: rest => p ++ 0x26 :: joinAmp (q :: rest)

/-- Go `Values.Encode`: the pairs in key order, escaped, joined by `&`. -/
def Values.Encode (v : Values) : GoString :=
  joinAmp ((sortEntries v).flatMap encodeEntry)

/-! ## `net/http` -/

/-- The body of a response, as an `io.ReadCloser`: the bytes reading will still
deliver, the error reading ends with (`none` for a clean end of data), and
whether `Close` has been called. -/
structure Body where
  data : GoString
  fault : Option GoErr
  closed : Bool
deriving DecidableEq, Repr

/-- Go `io.ReadAll`: everything the body delivers, the error that ended reading
if any, and the body with its data consumed. -/
def Body.readAll (b : Body) : GoString × Option GoErr × Body :=
  (b.data, b.fault, { b with data := [] })

/-- The method `Close` of a body. -/
def Body.Close (b : Body) : Body := { b with closed := true }

/-- The type `http.Response`. -/
structure Response where
  StatusCode : Int
  Header : List (GoString × GoString)
  Body : Body
deriving DecidableEq, Repr

/-- The type `http.Request`. -/
structure Request where
  Method : GoString
  URL : URL
  Header : List (GoString × GoString)
  Body : Option GoString
  Close : Bool
deriving DecidableEq, Repr

/-- What a call of `http.Client.Do` returns. -/
structure TransportResult where
  resp : Option Response
  err : Option GoErr
deriving DecidableEq, Repr

/-- An `*http.Client`, seen as what its method `Do` returns for a request. -/
abbrev Transport := Request → TransportResult

/-- Go `httpguts.IsTokenRune` on a byte. -/
def isTokenByte (c : Nat) : Bool :=
  isAlnum c || decide (c ∈ [0x21, 0x23, 0x24, 0x25, 0x26, 0x27, 0x2A, 0x2B, 0x2D, 0x2E, 0x5E,
    0x5F, 0x60, 0x7C, 0x7E])

/-- Go `validMethod`: a non-empty token. -/
def validMethod (method : GoString) : Bool := method ≠ [] && method.all isTokenByte

/-- Go `http.NewRequest`: an empty method means `GET`; fails on an invalid
method or a URL that does not parse. -/
def newRequest (method url : GoString) (body : Option GoString) : Except GoErr Request :=
  if ¬ validMethod (if method = [] then str "GET" else method) then
    Except.error (GoErr.lib "net/http: invalid method")
  else
    match parseURL url with
    | Except.error e => Except.error e
    | Except.ok u =>
      Except.ok { Method := if method = [] then str "GET" else method, URL := u, Header := [],
                  Body := body, Close := false }

/-- The method `Header.Add` for a key in canonical form. -/
def headerAdd (h : List (GoString × GoString)) (key value : GoString) :
    List (GoString × GoString) := h ++ [(key, value)]

/-- The method `Header.Values`: the values stored under a key. -/
def headerValues (h : List (GoString × GoString)) (key : GoString) : List GoString :=
  (h.filter fun p => decide (p.1 = key)).map fun p => p.2

/-! ## The client (`client.go`) -/

/-- The constant `MapBoxEndpoint`. -/
def MapBoxEndpoint : GoString := str "https://api.mapbox.com/"

/-- The struct `Client`: an optional access token and an optional HTTP client. -/
structure Client where
  AccessToken : Option GoString
  HTTPClient : Option Transport

/-- The variable `errNoResponse`. -/
def errNoResponse : GoErr := GoErr.lib "no response returned from API"

/-- The method `Client.httpClient`: the configured client, else
`http.DefaultClient`. -/
def Client.httpClient (c : Client) (defaultClient : Transport) : Transport :=
  match c.HTTPClient with
  | some t => t
  | none => defaultClient

/-- The method `Client.buildRequest`. -/
def Client.buildRequest (c : Client) (method absoluteendpoint : GoString)
    (payload : Option GoString) (contentType : GoString) : Except GoErr Request :=
  match newRequest method absoluteendpoint payload with
  | Except.error e => Except.error (GoErr.wrapped (str "create request: ") e [])
  | Except.ok req =>
    let req1 : Request :=
      match c.AccessToken with
      | some tok =>
        { req with URL := { req.URL with
            RawQuery := ((parseQuery req.URL.RawQuery).Add (str "access_token") tok).Encode } }
      | none => req
    let req2 : Request :=
      if payload ≠ none ∧ contentType ≠ [] then
        { req1 with Header := headerAdd req1.Header (str "Content-Type") contentType }
      else req1
    Except.ok { req2 with Close := true }

/-- The method `Client.checkAPIError`: the error it returns and the response
with the state its body is left in. -/
def Client.checkAPIError (_c : Client) (resp : Response) (endpoint : GoString) :
    Option GoErr × Response :=
  if resp.StatusCode < 400 ∧ resp.StatusCode ≥ 200 then (none, resp)
  else
    let apiError : Error :=
      { APIError := { Message := [] }, Type_ := [], StatusCode := resp.StatusCode,
        Endpoint := endpoint }
    let read := resp.Body.readAll
    let after : Response := { resp with Body := read.2.2.Close }
    match read.2.1 with
    | some err => (some (GoErr.wrapped (str "read error response: ") err []), after)
    | none =>
      match (unmarshal read.1 apiError).2 with
      | some _ =>
        (some (GoErr.api { (unmarshal read.1 apiError).1 with APIError := { Message := read.1 } }),
          after)
      | none => (some (GoErr.api (unmarshal read.1 apiError).1), after)

/-- What a call of `Client.Do` does: the request handed to the transport (if
one was), and the response and error returned. -/
structure DoResult where
  sent : Option Request
  resp : Option Response
  err : Option GoErr
deriving DecidableEq, Repr

/-- The method `Client.Do`. -/
def Client.Do (c : Client) (defaultClient : Transport) (method endpoint : GoString)
    (payload : Option GoString) (contentType : GoString) : DoResult :=
  match c.buildRequest method (MapBoxEndpoint ++ endpoint) payload contentType with
  | Except.error err => { sent := none, resp := none, err := some err }
  | Except.ok req =>
    match (c.httpClient defaultClient req).err with
    | some err =>
      { sent := some req, resp := none,
        err := some (GoErr.wrapped (str "execute request: ") err []) }
    | none =>
      match (c.httpClient defaultClient req).resp with
      | none =>
        { sent := some req, resp := none,
          err := some (GoErr.wrapped [] errNoResponse
            (str " for " ++ method ++ str " " ++ (MapBoxEndpoint ++ endpoint))) }
      | some resp =>
        { sent := some req, resp := some (c.checkAPIError resp endpoint).2,
          err := (c.checkAPIError resp endpoint).1 }

/-- The method `Client.Get`. -/
def Client.Get (c : Client) (defaultClient : Transport) (endpoint : GoString) : DoResult :=
  c.Do defaultClient (str "GET") endpoint none (str "application/json")

/-- The method `Client.Post`. -/
def Client.Post (c : Client) (defaultClient : Transport) (endpoint : GoString)
    (jsonpayload : Option GoString) : DoResult :=
  c.Do defaultClient (str "POST") endpoint jsonpayload (str "application/json")

/-- The method `Client.Patch`. -/
def Client.Patch (c : Client) (defaultClient : Transport) (endpoint : GoString)
    (jsonpayload : Option GoString) : DoResult :=
  c.Do defaultClient (str "PATCH") endpoint jsonpayload (str "application/json")

/-- The method `Client.Put`. -/
def Client.Put (c : Client) (defaultClient : Transport) (endpoint : GoString)
    (jsonpayload : Option GoString) : DoResult :=
  c.Do defaultClient (str "PUT") endpoint jsonpayload (str "application/json")

/-- The method `Client.PutOnly`. -/
def Client.PutOnly (c : Client) (defaultClient : Transport) (endpoint : GoString) : DoResult :=
  c.Do defaultClient (str "PUT") endpoint none (str "application/json")

/-- The method `Client.Delete`. -/
def Client.Delete (c : Client) (defaultClient : Transport) (endpoint : GoString) : DoResult :=
  c.Do defaultClient (str "DELETE") endpoint none (str "application/json")

/-! ## The error envelope as JSON text -/

/-- How an encoder writes one character of a JSON string: as it is, by a
two-character escape, or by `\u` escapes. -/
inductive CharForm where
  | raw | short | unicode
deriving DecidableEq, Repr

/-- Hexadecimal digit of a value below sixteen, in upper or lower case. -/
def hexDigit (upper : Bool) (d : Nat) : Nat :=
  if d < 10 then 0x30 + d else (if upper then 0x41 else 0x61) + (d - 10)

/-- The escape `\uXXXX` of a UTF-16 code unit. -/
def escapeU (upper : Bool) (u : Nat) : GoString :=
  [0x5C, 0x75, hexDigit upper (u / 4096), hexDigit upper (u / 256 % 16),
   hexDigit upper (u / 16 % 16), hexDigit upper (u % 16)]

/-- The letter of the two-character escape of a character, if JSON has one. -/
def shortEscape (c : Nat) : Option Nat :=
  if c = 0x22 then some 0x22
  else if c = 0x5C then some 0x5C
  else if c = 0x2F then some 0x2F
  else if c = 0x08 then some 0x62
  else if c = 0x0C then some 0x66
  else if c = 0x0A then some 0x6E
  else if c = 0x0D then some 0x72
  else if c = 0x09 then some 0x74
  else none

/-- One character of a JSON string as an encoder with the given preferences
writes it: the preferred form where JSON allows it, else `\u` escapes (a
surrogate pair outside the basic plane). -/
def quoteChar (form : Char → CharForm) (upper : Bool) (c : Char) : GoString :=
  if form c = CharForm.short ∧ (shortEscape c.toNat).isSome then
    [0x5C, (shortEscape c.toNat).getD 0]
  else if form c = CharForm.raw ∧ 0x20 ≤ c.toNat ∧ c.toNat ≠ 0x22 ∧ c.toNat ≠ 0x5C then
    encodeRune c.toNat
  else if c.toNat < 0x10000 then escapeU upper c.toNat
  else escapeU upper (0xD800 + (c.toNat - 0x10000) / 1024)
    ++ escapeU upper (0xDC00 + (c.toNat - 0x10000) % 1024)

/-- The characters of a JSON string, written one by one. -/
def quoteChars (form : Char → CharForm) (upper : Bool) : List Char → GoString
  | [] => []
  | c :: cs => quoteChar form upper c ++ quoteChars form upper cs

/-- A JSON string literal denoting the text `s`. -/
def jsonString (form : Char → CharForm) (upper : Bool) (s : String) : GoString :=
  0x22 :: (quoteChars form upper s.data ++ [0x22])

/-- The JSON object `{"error":{"message":m},"type":t}` of the wire format, the
two strings written by an encoder with the given preferences. -/
def errorEnvelope (form : Char → CharForm) (upper : Bool) (m t : String) : GoString :=
  str "\x7b\"error\":\x7b\"message\":" ++ (jsonString form upper m
    ++ (str "\x7d,\"type\":" ++ (jsonString form upper t ++ str "\x7d")))

/-- An encoder that escapes only what JSON requires it to. -/
def plainForm : Char → CharForm := fun _ => CharForm.raw

/-! ## Query parameters -/

/-- The key/value pairs a `url.Values` holds. -/
def Values.pairs (v : Values) : List (GoString × GoString) :=
  v.flatMap fun e => e.2.map fun x => (e.1, x)

/-- The query parameters of a raw query, as the method `URL.Query` reports them:
the decoded key/value pairs. -/
def queryPairs (query : GoString) : List (GoString × GoString) := (parseQuery query).pairs

/-- The raw query of an endpoint path: the text after its first `?`, up to its
first `#`. -/
def endpointQuery (endpoint : GoString) : GoString := (cut 0x3F (cut 0x23 endpoint).1).2.1

/-- A sequence of bytes: every element is below 256. -/
def IsBytes (s : GoString) : Prop := ∀ b, b ∈ s → b < 256

/-! ## Sample values -/

/-- A client configured with the access token `test-token` and no HTTP client of
its own. -/
def sampleClient : Client := { AccessToken := some (str "test-token"), HTTPClient := none }

/-- A response with the given status and body text, its body open and unread. -/
def sampleResponse (status : Int) (body : String) : Response :=
  { StatusCode := status, Header := [], Body := { data := str body, fault := none, closed := false } }

/-- A response with status `500` whose body breaks off while it is read. -/
def brokenResponse : Response :=
  { StatusCode := 500, Header := [],
    Body := { data := str "Internal Ser", fault := some (GoErr.lib "unexpected EOF"),
              closed := false } }

/-- A transport that answers every request with the same response. -/
def answering (resp : Response) : Transport := fun _ => { resp := some resp, err := none }

/-- A transport that fails every request with the same error. -/
def failing (err : GoErr) : Transport := fun _ => { resp := none, err := some err }

/-- The URL of the request the sample client sends to `tokens/v2/user`. -/
def sampleURL : URL :=
  { Scheme := str "https", Opaque := [], Host := str "api.mapbox.com",
    Path := str "/tokens/v2/user", ForceQuery := false,
    RawQuery := str "access_token=test-token", Fragment := [] }

/-- The request the sample client builds for a call without body. -/
def sampleRequest (method : String) : Request :=
  { Method := str method, URL := sampleURL, Header := [], Body := none, Close := true }

/-- The request the sample client builds for a call with a JSON body. -/
def sampleRequestWithBody (method : String) (body : String) : Request :=
  { Method := str method, URL := sampleURL,
    Header := [(str "Content-Type", str "application/json")], Body := some (str body),
    Close := true }

/-! ## Properties of `Do` -/

/-- What `Do` returns once the request is built and the transport has answered
with a response and no error. -/
theorem Do_of_response (c : Client) (d : Transport) (method endpoint : GoString)
    (payload : Option GoString) (contentType : GoString) (req : Request) (resp : Response)
    (hreq : c.buildRequest method (MapBoxEndpoint ++ endpoint) payload contentType
      = Except.ok req)
    (htr : c.httpClient d req = { resp := some resp, err := none }) :
    c.Do d method endpoint payload contentType
      = { sent := some req, resp := some (c.checkAPIError resp endpoint).2,
          err := (c.checkAPIError resp endpoint).1 } := by
  simp [Client.Do, hreq, htr]

/-- The request `Do` hands to the transport is the one `buildRequest` makes. -/
theorem Do_sent (c : Client) (d : Transport) (method endpoint : GoString)
    (payload : Option GoString) (contentType : GoString) :
    (c.Do d method endpoint payload contentType).sent
      = (c.buildRequest method (MapBoxEndpoint ++ endpoint) payload contentType).toOption := by
  unfold Client.Do
  cases hb : c.buildRequest method (MapBoxEndpoint ++ endpoint) payload contentType with
  | error e => simp [Except.toOption]
  | ok req =>
    simp only [Except.toOption]
    cases h1 : (c.httpClient d req).err with
    | some e => simp
    | none =>
      cases h2 : (c.httpClient d req).resp with
      | none => simp
      | some r => simp

/-- An API error comes out of `Do` only through `checkAPIError`. -/
theorem Do_api_error_origin (c : Client) (d : Transport) (method endpoint : GoString)
    (payload : Option GoString) (contentType : GoString) (e : Error)
    (h : (c.Do d method endpoint payload contentType).err = some (GoErr.api e)) :
    ∃ req resp, c.buildRequest method (MapBoxEndpoint ++ endpoint) payload contentType
        = Except.ok req
      ∧ c.httpClient d req = { resp := some resp, err := none }
      ∧ (c.checkAPIError resp endpoint).1 = some (GoErr.api e) := by
  unfold Client.Do at h
  cases hb : c.buildRequest method (MapBoxEndpoint ++ endpoint) payload contentType with
  | error err =>
    simp only [hb] at h
    simp only [Client.buildRequest] at hb
    cases hn : newRequest method (MapBoxEndpoint ++ endpoint) payload with
    | error e1 =>
      simp only [hn] at hb
      cases hb
      simp at h
    | ok r => simp only [hn] at hb; cases hb
  | ok req =>
    simp only [hb] at h
    refine ⟨req, ?_⟩
    cases hc : c.httpClient d req with
    | mk resp err =>
      simp only [hc] at h
      cases err with
      | some e1 => simp at h
      | none =>
        cases resp with
        | none => simp at h
        | some r => exact ⟨r, rfl, rfl, by simpa using h⟩

/-- The status codes `checkAPIError` lets through. -/
theorem checkAPIError_of_success (c : Client) (resp : Response) (endpoint : GoString)
    (hs : 200 ≤ resp.StatusCode ∧ resp.StatusCode ≤ 399) :
    c.checkAPIError resp endpoint = (none, resp) := by
  have h4 : resp.StatusCode < 400 ∧ resp.StatusCode ≥ 200 := by omega
  simp [Client.checkAPIError, h4]

/-- Outside `[200,399]`, a body whose reading fails gives the wrapped read error;
the body is left consumed and closed. -/
theorem checkAPIError_of_read_fault (c : Client) (resp : Response) (endpoint : GoString)
    (err : GoErr) (hs : ¬ (200 ≤ resp.StatusCode ∧ resp.StatusCode ≤ 399))
    (hf : resp.Body.fault = some err) :
    c.checkAPIError resp endpoint
      = (some (GoErr.wrapped (str "read error response: ") err []),
         { resp with Body := { data := [], fault := some err, closed := true } }) := by
  have h4 : ¬ (resp.StatusCode < 400 ∧ resp.StatusCode ≥ 200) := by omega
  simp [Client.checkAPIError, h4, Body.readAll, Body.Close, hf]

/-- Outside `[200,399]`, a body read to its end gives an API error: the decoded
struct, its message replaced by the body text when decoding returned an error. -/
theorem checkAPIError_of_body (c : Client) (resp : Response) (endpoint : GoString)
    (hs : ¬ (200 ≤ resp.StatusCode ∧ resp.StatusCode ≤ 399))
    (hf : resp.Body.fault = none) :
    c.checkAPIError resp endpoint
      = (some (GoErr.api
          (if (unmarshal resp.Body.data
                { APIError := { Message := [] }, Type_ := [], StatusCode := resp.StatusCode,
                  Endpoint := endpoint }).2 = none then
            (unmarshal resp.Body.data
                { APIError := { Message := [] }, Type_ := [], StatusCode := resp.StatusCode,
                  Endpoint := endpoint }).1
          else
            { (unmarshal resp.Body.data
                { APIError := { Message := [] }, Type_ := [], StatusCode := resp.StatusCode,
                  Endpoint := endpoint }).1 with APIError := { Message := resp.Body.data } })),
         { resp with Body := { data := [], fault := none, closed := true } }) := by
  have h4 : ¬ (resp.StatusCode < 400 ∧ resp.StatusCode ≥ 200) := by omega
  simp only [Client.checkAPIError, h4, if_false, Body.readAll, Body.Close, hf]
  cases (unmarshal resp.Body.data
      { APIError := { Message := [] }, Type_ := [], StatusCode := resp.StatusCode,
        Endpoint := endpoint }).2 with
  | some e => simp
  | none => simp

/-- `checkAPIError` returns an error for every status outside `[200,399]`. -/
theorem checkAPIError_ne_none (c : Client) (resp : Response) (endpoint : GoString)
    (hs : ¬ (200 ≤ resp.StatusCode ∧ resp.StatusCode ≤ 399)) :
    (c.checkAPIError resp endpoint).1 ≠ none := by
  cases hf : resp.Body.fault with
  | some err => rw [checkAPIError_of_read_fault c resp endpoint err hs hf]; simp
  | none => rw [checkAPIError_of_body c resp endpoint hs hf]; simp

/-- C2. For every response the transport returns (with no error) whose status
code `s` satisfies `200 <= s <= 399`, `Do` returns that same response, its body
neither read nor closed, and a nil error; and whenever `Do` returns an API
error, the transport had returned a response whose status is outside `[200,399]`. -/
theorem Do_success_passes_response_through (c : Client) (d : Transport)
    (method endpoint : GoString) (payload : Option GoString) (contentType : GoString) :
    (∀ req resp,
        c.buildRequest method (MapBoxEndpoint ++ endpoint) payload contentType = Except.ok req →
        c.httpClient d req = { resp := some resp, err := none } →
        200 ≤ resp.StatusCode ∧ resp.StatusCode ≤ 399 →
        c.Do d method endpoint payload contentType
          = { sent := some req, resp := some resp, err := none })
    ∧ (∀ e, (c.Do d method endpoint payload contentType).err = some (GoErr.api e) →
        ∃ req resp,
          c.buildRequest method (MapBoxEndpoint ++ endpoint) payload contentType
            = Except.ok req
          ∧ c.httpClient d req = { resp := some resp, err := none }
          ∧ ¬ (200 ≤ resp.StatusCode ∧ resp.StatusCode ≤ 399)) := by
  constructor
  · intro req resp hreq htr hs
    rw [Do_of_response c d method endpoint payload contentType req resp hreq htr,
      checkAPIError_of_success c resp endpoint hs]
  · intro e he
    obtain ⟨req, resp, hreq, htr, hc⟩ :=
      Do_api_error_origin c d method endpoint payload contentType e he
    refine ⟨req, resp, hreq, htr, ?_⟩
    intro hs
    rw [checkAPIError_of_success c resp endpoint hs] at hc
    cases hc

/-- Witness for C2: a `204` answer to a `DELETE` comes back untouched, and the
API error returned for a `404` answer stems from a status outside `[200,399]`. -/
theorem Do_success_passes_response_through_witness :
    sampleClient.Do (answering (sampleResponse 204 "")) (str "DELETE") (str "tokens/v2/user")
        none (str "application/json")
      = { sent := some (sampleRequest "DELETE"), resp := some (sampleResponse 204 ""),
          err := none }
    ∧ ∃ req resp,
        sampleClient.buildRequest (str "GET") (MapBoxEndpoint ++ str "tokens/v2/user") none
            (str "application/json") = Except.ok req
        ∧ sampleClient.httpClient (answering (sampleResponse 404 "Not Found")) req
            = { resp := some resp, err := none }
        ∧ ¬ (200 ≤ resp.StatusCode ∧ resp.StatusCode ≤ 399) :=
  ⟨(Do_success_passes_response_through sampleClient (answering (sampleResponse 204 ""))
      (str "DELETE") (str "tokens/v2/user") none (str "application/json")).1
      (sampleRequest "DELETE") (sampleResponse 204 "") (by decide) rfl (by decide),
   (Do_success_passes_response_through sampleClient (answering (sampleResponse 404 "Not Found"))
      (str "GET") (str "tokens/v2/user") none (str "application/json")).2
      { APIError := { Message := str "Not Found" }, Type_ := [], StatusCode := 404,
        Endpoint := str "tokens/v2/user" } (by decide)⟩

/-- The shape of every request `http.NewRequest` returns. -/
theorem newRequest_ok (method url : GoString) (body : Option GoString) (r : Request)
    (h : newRequest method url body = Except.ok r) :
    ∃ u, parseURL url = Except.ok u
      ∧ validMethod (if method = [] then str "GET" else method) = true
      ∧ r = { Method := if method = [] then str "GET" else method, URL := u, Header := [],
              Body := body, Close := false } := by
  unfold newRequest at h
  by_cases hv : validMethod (if method = [] then str "GET" else method) = true
  · rw [if_neg (not_not.2 hv)] at h
    cases hu : parseURL url with
    | error e => rw [hu] at h; cases h
    | ok u =>
      rw [hu] at h
      simp only [Except.ok.injEq] at h
      exact ⟨u, rfl, hv, h.symm⟩
  · rw [if_pos hv] at h
    cases h

/-- The shape of every request `buildRequest` returns. -/
theorem buildRequest_ok (c : Client) (method absoluteendpoint : GoString)
    (payload : Option GoString) (contentType : GoString) (req : Request)
    (h : c.buildRequest method absoluteendpoint payload contentType = Except.ok req) :
    ∃ u, parseURL absoluteendpoint = Except.ok u
      ∧ req = { Method := if method = [] then str "GET" else method,
                URL := (match c.AccessToken with
                  | some tok =>
                    { u with RawQuery :=
                        ((parseQuery u.RawQuery).Add (str "access_token") tok).Encode }
                  | none => u),
                Header := if payload ≠ none ∧ contentType ≠ [] then
                    [(str "Content-Type", contentType)] else [],
                Body := payload, Close := true } := by
  unfold Client.buildRequest at h
  cases hn : newRequest method absoluteendpoint payload with
  | error e => rw [hn] at h; cases h
  | ok r =>
    rw [hn] at h
    obtain ⟨u, hu, _, hr⟩ := newRequest_ok method absoluteendpoint payload r hn
    refine ⟨u, hu, ?_⟩
    simp only [Except.ok.injEq] at h
    rw [← h, hr]
    cases c.AccessToken <;> by_cases hp : payload ≠ none ∧ contentType ≠ [] <;>
      simp [hp, headerAdd]

/-- C6. Whenever the transport is called (the request was built) and returns an
error, `Do` returns a nil response and that error wrapped by
`fmt.Errorf("execute request: %w", err)`; the error returned is not an API
error, whatever response the transport returned along with its error. -/
theorem Do_wraps_transport_error (c : Client) (d : Transport) (method endpoint : GoString)
    (payload : Option GoString) (contentType : GoString) (req : Request) (terr : GoErr)
    (hreq : c.buildRequest method (MapBoxEndpoint ++ endpoint) payload contentType
      = Except.ok req)
    (htr : (c.httpClient d req).err = some terr) :
    c.Do d method endpoint payload contentType
        = { sent := some req, resp := none,
            err := some (GoErr.wrapped (str "execute request: ") terr []) }
      ∧ ∀ e, (c.Do d method endpoint payload contentType).err ≠ some (GoErr.api e) := by
  have h : c.Do d method endpoint payload contentType
      = { sent := some req, resp := none,
          err := some (GoErr.wrapped (str "execute request: ") terr []) } := by
    simp [Client.Do, hreq, htr]
  refine ⟨h, ?_⟩
  intro e he
  rw [h] at he
  cases he

/-- Witness for C6: a refused connection on a `GET`. -/
theorem Do_wraps_transport_error_witness :
    sampleClient.Do (failing (GoErr.lib "dial tcp: connection refused")) (str "GET")
        (str "tokens/v2/user") none (str "application/json")
      = { sent := some (sampleRequest "GET"), resp := none,
          err := some (GoErr.wrapped (str "execute request: ")
            (GoErr.lib "dial tcp: connection refused") []) }
    ∧ ∀ e, (sampleClient.Do (failing (GoErr.lib "dial tcp: connection refused")) (str "GET")
        (str "tokens/v2/user") none (str "application/json")).err ≠ some (GoErr.api e) :=
  Do_wraps_transport_error sampleClient (failing (GoErr.lib "dial tcp: connection refused"))
    (str "GET") (str "tokens/v2/user") none (str "application/json") (sampleRequest "GET")
    (GoErr.lib "dial tcp: connection refused") (by decide) rfl

/-- C7. The request `Do` hands to the transport has a `Content-Type` header if
and only if a body is present and the content-type argument is not empty; the
header then has exactly that one value, the content-type argument, and in every
other case the request has no header at all. -/
theorem Do_content_type_header (c : Client) (d : Transport) (method endpoint : GoString)
    (payload : Option GoString) (contentType : GoString) (req : Request)
    (hsent : (c.Do d method endpoint payload contentType).sent = some req) :
    ((∃ v, (str "Content-Type", v) ∈ req.Header) ↔ (payload ≠ none ∧ contentType ≠ []))
      ∧ (∀ v, (str "Content-Type", v) ∈ req.Header → v = contentType)
      ∧ req.Header = (if payload ≠ none ∧ contentType ≠ [] then
          [(str "Content-Type", contentType)] else []) := by
  rw [Do_sent] at hsent
  cases hb : c.buildRequest method (MapBoxEndpoint ++ endpoint) payload contentType with
  | error e => rw [hb] at hsent; cases hsent
  | ok r =>
    rw [hb] at hsent
    simp only [Except.toOption, Option.some.injEq] at hsent
    subst hsent
    obtain ⟨u, _, hr⟩ := buildRequest_ok c method _ payload contentType r hb
    have hh : r.Header = (if payload ≠ none ∧ contentType ≠ [] then
        [(str "Content-Type", contentType)] else []) := by rw [hr]
    refine ⟨?_, ?_, hh⟩
    · rw [hh]
      by_cases hp : payload ≠ none ∧ contentType ≠ []
      · rw [if_pos hp]
        exact ⟨fun _ => hp, fun _ => ⟨contentType, List.mem_singleton.2 rfl⟩⟩
      · rw [if_neg hp]
        constructor
        · rintro ⟨v, hv⟩
          cases hv
        · intro h
          exact absurd h hp
    · intro v hv
      rw [hh] at hv
      by_cases hp : payload ≠ none ∧ contentType ≠ []
      · rw [if_pos hp] at hv
        have := List.mem_singleton.1 hv
        exact (Prod.mk.inj this).2
      · rw [if_neg hp] at hv
        cases hv

/-- Witness for C7: a `POST` with a body carries `application/json`. -/
theorem Do_content_type_header_witness :
    ((∃ v, (str "Content-Type", v) ∈ (sampleRequestWithBody "POST" "\x7b\x7d").Header)
        ↔ (some (str "\x7b\x7d") ≠ none ∧ str "application/json" ≠ []))
      ∧ (∀ v, (str "Content-Type", v) ∈ (sampleRequestWithBody "POST" "\x7b\x7d").Header
          → v = str "application/json")
      ∧ (sampleRequestWithBody "POST" "\x7b\x7d").Header
          = (if some (str "\x7b\x7d") ≠ none ∧ str "application/json" ≠ [] then
              [(str "Content-Type", str "application/json")] else []) :=
  Do_content_type_header sampleClient (answering (sampleResponse 200 "\x7b\x7d")) (str "POST")
    (str "tokens/v2/user") (some (str "\x7b\x7d")) (str "application/json")
    (sampleRequestWithBody "POST" "\x7b\x7d") (by decide)

/-- C8. Each verb helper is `Do` with its own method and the content type
`application/json`: `Get`, `PutOnly` and `Delete` pass no body, `Post`, `Patch`
and `Put` pass the caller's; and the request `PutOnly` issues has method `PUT`,
no body and no header (so no `Content-Type`). -/
theorem verb_helpers_are_Do (c : Client) (d : Transport) (endpoint : GoString)
    (jsonpayload : Option GoString) :
    c.Get d endpoint = c.Do d (str "GET") endpoint none (str "application/json")
      ∧ c.Post d endpoint jsonpayload
          = c.Do d (str "POST") endpoint jsonpayload (str "application/json")
      ∧ c.Patch d endpoint jsonpayload
          = c.Do d (str "PATCH") endpoint jsonpayload (str "application/json")
      ∧ c.Put d endpoint jsonpayload
          = c.Do d (str "PUT") endpoint jsonpayload (str "application/json")
      ∧ c.PutOnly d endpoint = c.Do d (str "PUT") endpoint none (str "application/json")
      ∧ c.Delete d endpoint = c.Do d (str "DELETE") endpoint none (str "application/json")
      ∧ ∀ req, (c.PutOnly d endpoint).sent = some req →
          req.Method = str "PUT" ∧ req.Body = none ∧ req.Header = []
            ∧ ¬ ∃ v, (str "Content-Type", v) ∈ req.Header := by
  refine ⟨rfl, rfl, rfl, rfl, rfl, rfl, ?_⟩
  intro req hsent
  unfold Client.PutOnly at hsent
  rw [Do_sent] at hsent
  cases hb : c.buildRequest (str "PUT") (MapBoxEndpoint ++ endpoint) none
      (str "application/json") with
  | error e => rw [hb] at hsent; cases hsent
  | ok r =>
    rw [hb] at hsent
    simp only [Except.toOption, Option.some.injEq] at hsent
    subst hsent
    obtain ⟨u, _, hr⟩ := buildRequest_ok c _ _ none _ r hb
    have hne : str "PUT" ≠ [] := by decide
    have hm : r.Method = str "PUT" := by rw [hr]; simp only [if_neg hne]
    have hbody : r.Body = none := by rw [hr]
    have hh : r.Header = [] := by rw [hr]; simp
    refine ⟨hm, hbody, hh, ?_⟩
    rw [hh]
    simp

/-- Witness for C8: `PutOnly` on `tokens/v2/user` issues a bare `PUT`. -/
theorem verb_helpers_are_Do_witness :
    (sampleRequest "PUT").Method = str "PUT" ∧ (sampleRequest "PUT").Body = none
      ∧ (sampleRequest "PUT").Header = []
      ∧ ¬ ∃ v, (str "Content-Type", v) ∈ (sampleRequest "PUT").Header :=
  (verb_helpers_are_Do sampleClient (answering (sampleResponse 200 "")) (str "tokens/v2/user")
    none).2.2.2.2.2.2 (sampleRequest "PUT") (by decide)

/-- Outside `[200,399]`, `checkAPIError` leaves the body consumed and closed. -/
theorem checkAPIError_closes (c : Client) (resp : Response) (endpoint : GoString)
    (hs : ¬ (200 ≤ resp.StatusCode ∧ resp.StatusCode ≤ 399)) :
    (c.checkAPIError resp endpoint).2
      = { resp with Body := { data := [], fault := resp.Body.fault, closed := true } } := by
  cases hf : resp.Body.fault with
  | some err => rw [checkAPIError_of_read_fault c resp endpoint err hs hf]
  | none => rw [checkAPIError_of_body c resp endpoint hs hf]

/-- C9. For every response with a status code outside `[200,399]`, whatever its
body delivers (a read failure included), `Do` returns an error together with
that response, its body consumed and closed; and whenever `Do` returns an error,
it returns either no response or a response whose body is closed. -/
theorem Do_error_leaves_body_closed (c : Client) (d : Transport) (method endpoint : GoString)
    (payload : Option GoString) (contentType : GoString) :
    (∀ req resp,
        c.buildRequest method (MapBoxEndpoint ++ endpoint) payload contentType = Except.ok req →
        c.httpClient d req = { resp := some resp, err := none } →
        ¬ (200 ≤ resp.StatusCode ∧ resp.StatusCode ≤ 399) →
        ∃ e, c.Do d method endpoint payload contentType
          = { sent := some req,
              resp := some { resp with
                Body := { data := [], fault := resp.Body.fault, closed := true } },
              err := some e })
    ∧ (∀ e, (c.Do d method endpoint payload contentType).err = some e →
        (c.Do d method endpoint payload contentType).resp = none
        ∨ ∃ r, (c.Do d method endpoint payload contentType).resp = some r
            ∧ r.Body.closed = true) := by
  constructor
  · intro req resp hreq htr hs
    rw [Do_of_response c d method endpoint payload contentType req resp hreq htr,
      checkAPIError_closes c resp endpoint hs]
    cases he : (c.checkAPIError resp endpoint).1 with
    | none => exact absurd he (checkAPIError_ne_none c resp endpoint hs)
    | some e => exact ⟨e, rfl⟩
  · intro e he
    unfold Client.Do at he ⊢
    cases hb : c.buildRequest method (MapBoxEndpoint ++ endpoint) payload contentType with
    | error err => left; rfl
    | ok req =>
      simp only [hb] at he ⊢
      cases hc : c.httpClient d req with
      | mk resp err =>
        simp only [hc] at he ⊢
        cases err with
        | some e1 => left; rfl
        | none =>
          cases resp with
          | none => left; rfl
          | some r =>
            right
            simp only at he ⊢
            by_cases hs : 200 ≤ r.StatusCode ∧ r.StatusCode ≤ 399
            · rw [checkAPIError_of_success c r endpoint hs] at he
              cases he
            · exact ⟨_, rfl, by rw [checkAPIError_closes c r endpoint hs]⟩

/-- Witness for C9: a `500` answer whose body breaks off while being read. -/
theorem Do_error_leaves_body_closed_witness :
    (∃ e, sampleClient.Do (answering brokenResponse) (str "GET") (str "tokens/v2/user") none
        (str "application/json")
      = { sent := some (sampleRequest "GET"),
          resp := some { brokenResponse with
            Body := { data := [], fault := brokenResponse.Body.fault, closed := true } },
          err := some e })
    ∧ ((sampleClient.Do (answering (sampleResponse 404 "Not Found")) (str "GET")
          (str "tokens/v2/user") none (str "application/json")).resp = none
      ∨ ∃ r, (sampleClient.Do (answering (sampleResponse 404 "Not Found")) (str "GET")
          (str "tokens/v2/user") none (str "application/json")).resp = some r
            ∧ r.Body.closed = true) :=
  ⟨(Do_error_leaves_body_closed sampleClient (answering brokenResponse)
      (str "GET") (str "tokens/v2/user") none (str "application/json")).1
      (sampleRequest "GET") brokenResponse (by decide) rfl (by decide),
   (Do_error_leaves_body_closed sampleClient (answering (sampleResponse 404 "Not Found"))
      (str "GET") (str "tokens/v2/user") none (str "application/json")).2
      (GoErr.api { APIError := { Message := str "Not Found" }, Type_ := [], StatusCode := 404,
                   Endpoint := str "tokens/v2/user" }) (by decide)⟩

/-- Whether storing a value into a string meets a type error does not depend on
the value held before. -/
theorem storeString_flag (v : JValue) (cur cur1 : GoString) :
    (storeString v cur).2 = (storeString v cur1).2 := by
  cases v <;> rfl

/-- Whether storing a value into an `int` meets a type error does not depend on
the value held before. -/
theorem storeInt_flag (v : JValue) (cur cur1 : Int) :
    (storeInt v cur).2 = (storeInt v cur1).2 := by
  cases v with
  | num lit => simp only [storeInt]; cases parseInt64 lit <;> rfl
  | _ => rfl

/-- The type-error flag after one member of the nested object. -/
theorem storeBodyMember_flag (a a1 : APIErrorBody) (b : Bool) (m : GoString × JValue) :
    (storeBodyMember (a, b) m).2 = (storeBodyMember (a1, b) m).2 := by
  unfold storeBodyMember
  cases lookupField apiErrorBodyFields m.1 with
  | none => rfl
  | some u => simp only [storeString_flag m.2 a.Message a1.Message]

/-- The type-error flag after the members of the nested object. -/
theorem foldl_storeBodyMember_flag (ms : List (GoString × JValue)) (a a1 : APIErrorBody)
    (b : Bool) :
    (ms.foldl storeBodyMember (a, b)).2 = (ms.foldl storeBodyMember (a1, b)).2 := by
  induction ms generalizing a a1 b with
  | nil => rfl
  | cons m ms ih =>
    simp only [List.foldl_cons]
    have h := storeBodyMember_flag a a1 b m
    rw [show storeBodyMember (a, b) m
        = ((storeBodyMember (a, b) m).1, (storeBodyMember (a, b) m).2) from rfl,
      show storeBodyMember (a1, b) m
        = ((storeBodyMember (a1, b) m).1, (storeBodyMember (a1, b) m).2) from rfl, h]
    exact ih _ _ _

/-- Whether storing a value into the nested struct meets a type error does not
depend on the value held before. -/
theorem storeAPIErrorBody_flag (v : JValue) (a a1 : APIErrorBody) :
    (storeAPIErrorBody v a).2 = (storeAPIErrorBody v a1).2 := by
  cases v with
  | obj ms => exact foldl_storeBodyMember_flag ms a a1 false
  | _ => rfl

/-- The type-error flag after one member of the top-level object. -/
theorem storeMember_flag (e e1 : Error) (b : Bool) (m : GoString × JValue) :
    (storeMember (e, b) m).2 = (storeMember (e1, b) m).2 := by
  unfold storeMember
  cases lookupField errorFields m.1 with
  | none => rfl
  | some f =>
    cases f with
    | apiError => simp only [storeAPIErrorBody_flag m.2 e.APIError e1.APIError]
    | type => simp only [storeString_flag m.2 e.Type_ e1.Type_]
    | statusCode => simp only [storeInt_flag m.2 e.StatusCode e1.StatusCode]
    | endpoint => simp only [storeString_flag m.2 e.Endpoint e1.Endpoint]

/-- The type-error flag after the members of the top-level object. -/
theorem foldl_storeMember_flag (ms : List (GoString × JValue)) (e e1 : Error) (b : Bool) :
    (ms.foldl storeMember (e, b)).2 = (ms.foldl storeMember (e1, b)).2 := by
  induction ms generalizing e e1 b with
  | nil => rfl
  | cons m ms ih =>
    simp only [List.foldl_cons]
    have h := storeMember_flag e e1 b m
    rw [show storeMember (e, b) m
        = ((storeMember (e, b) m).1, (storeMember (e, b) m).2) from rfl,
      show storeMember (e1, b) m
        = ((storeMember (e1, b) m).1, (storeMember (e1, b) m).2) from rfl, h]
    exact ih _ _ _

/-- Whether `json.Unmarshal` returns an error depends on the data only, not on
the struct decoded into. -/
theorem unmarshal_err_indep (data : GoString) (e e1 : Error) :
    (unmarshal data e).2 = (unmarshal data e1).2 := by
  unfold unmarshal
  cases parseJSON data with
  | none => rfl
  | some v =>
    have h : (storeError v e).2 = (storeError v e1).2 := by
      cases v with
      | obj ms => exact foldl_storeMember_flag ms e e1 false
      | _ => rfl
    simp only [h]

/-- C3. For every response with a status code outside `[200,399]` whose body is
read to its end and fails to decode (`json.Unmarshal` into an `Error` returns an
error), `Do` returns an API error whose message is the body, byte for byte. -/
theorem Do_undecodable_body_is_message (c : Client) (d : Transport)
    (method endpoint : GoString) (payload : Option GoString) (contentType : GoString)
    (req : Request) (resp : Response) (e0 : Error)
    (hreq : c.buildRequest method (MapBoxEndpoint ++ endpoint) payload contentType
      = Except.ok req)
    (htr : c.httpClient d req = { resp := some resp, err := none })
    (hs : ¬ (200 ≤ resp.StatusCode ∧ resp.StatusCode ≤ 399))
    (hread : resp.Body.fault = none)
    (hdec : (unmarshal resp.Body.data e0).2 ≠ none) :
    ∃ e, (c.Do d method endpoint payload contentType).err = some (GoErr.api e)
      ∧ e.APIError.Message = resp.Body.data := by
  rw [Do_of_response c d method endpoint payload contentType req resp hreq htr,
    checkAPIError_of_body c resp endpoint hs hread]
  rw [unmarshal_err_indep resp.Body.data e0
    { APIError := { Message := [] }, Type_ := [], StatusCode := resp.StatusCode,
      Endpoint := endpoint }] at hdec
  exact ⟨_, rfl, by rw [if_neg hdec]⟩

/-- Witness for C3: the body `oops` with status `500` gives the message `oops`. -/
theorem Do_undecodable_body_is_message_witness :
    ∃ e, (sampleClient.Do (answering (sampleResponse 500 "oops")) (str "GET")
        (str "tokens/v2/user") none (str "application/json")).err = some (GoErr.api e)
      ∧ e.APIError.Message = str "oops" :=
  Do_undecodable_body_is_message sampleClient (answering (sampleResponse 500 "oops")) (str "GET")
    (str "tokens/v2/user") none (str "application/json") (sampleRequest "GET")
    (sampleResponse 500 "oops")
    { APIError := { Message := [] }, Type_ := [], StatusCode := 0, Endpoint := [] }
    (by decide) rfl (by decide) rfl (by decide)

/-- A member name selects a field only if the two names are equal after folding. -/
theorem lookupField_fold {α : Type} (fields : List (GoString × α)) (key : GoString) (a : α)
    (h : lookupField fields key = some a) :
    ∃ f, f ∈ fields ∧ f.2 = a ∧ foldName f.1 = foldName key := by
  unfold lookupField at h
  cases hx : fields.find? (fun f => decide (f.1 = key)) with
  | some f =>
    rw [hx] at h
    simp only [Option.some.injEq] at h
    have h1 := List.find?_some hx
    simp only [decide_eq_true_eq] at h1
    exact ⟨f, List.mem_of_find?_eq_some hx, h, by rw [h1]⟩
  | none =>
    rw [hx] at h
    simp only [Option.map_eq_some'] at h
    obtain ⟨f, hf, hfa⟩ := h
    have h1 := List.find?_some hf
    simp only [decide_eq_true_eq] at h1
    exact ⟨f, List.mem_of_find?_eq_some hf, hfa, h1⟩

/-- The name under which a field of `Error` is listed. -/
theorem errorFields_name (f : GoString × ErrorField) (hf : f ∈ errorFields) :
    f.1 = f.2.name := by
  simp only [errorFields, List.mem_cons, List.mem_singleton, List.not_mem_nil, or_false] at hf
  rcases hf with h | h | h | h <;> rw [h] <;> rfl

/-- If a member selects a field of `Error`, its folded name is that of the field. -/
theorem lookupField_errorFields (key : GoString) (fld : ErrorField)
    (h : lookupField errorFields key = some fld) :
    foldName key = foldName fld.name := by
  obtain ⟨f, hf, hfa, hfold⟩ := lookupField_fold errorFields key fld h
  rw [← hfold, errorFields_name f hf, hfa]

/-- A member whose folded name differs from that of `StatusCode` leaves the
field `StatusCode` alone. -/
theorem storeMember_StatusCode (acc : Error × Bool) (m : GoString × JValue)
    (h : foldName m.1 ≠ foldName (str "StatusCode")) :
    (storeMember acc m).1.StatusCode = acc.1.StatusCode := by
  unfold storeMember
  cases hl : lookupField errorFields m.1 with
  | none => rfl
  | some f =>
    cases f with
    | statusCode => exact absurd (lookupField_errorFields m.1 _ hl) h
    | _ => rfl

/-- A member whose folded name differs from that of `Endpoint` leaves the field
`Endpoint` alone. -/
theorem storeMember_Endpoint (acc : Error × Bool) (m : GoString × JValue)
    (h : foldName m.1 ≠ foldName (str "Endpoint")) :
    (storeMember acc m).1.Endpoint = acc.1.Endpoint := by
  unfold storeMember
  cases hl : lookupField errorFields m.1 with
  | none => rfl
  | some f =>
    cases f with
    | endpoint => exact absurd (lookupField_errorFields m.1 _ hl) h
    | _ => rfl

/-- A member whose folded name differs from that of `error` leaves the nested
struct alone. -/
theorem storeMember_APIError (acc : Error × Bool) (m : GoString × JValue)
    (h : foldName m.1 ≠ foldName (str "error")) :
    (storeMember acc m).1.APIError = acc.1.APIError := by
  unfold storeMember
  cases hl : lookupField errorFields m.1 with
  | none => rfl
  | some f =>
    cases f with
    | apiError => exact absurd (lookupField_errorFields m.1 _ hl) h
    | _ => rfl

/-- A quantity every member of a list leaves alone is left alone by the list. -/
theorem foldl_storeMember_keeps {β : Type} (g : Error → β) (ms : List (GoString × JValue))
    (hstep : ∀ acc m, m ∈ ms → g (storeMember acc m).1 = g acc.1) (acc : Error × Bool) :
    g (ms.foldl storeMember acc).1 = g acc.1 := by
  induction ms generalizing acc with
  | nil => rfl
  | cons m ms ih =>
    simp only [List.foldl_cons]
    rw [ih (fun acc1 m1 hm1 => hstep acc1 m1 (List.mem_cons_of_mem _ hm1)),
      hstep acc m (List.mem_cons_self _ _)]

/-- A quantity that the members of a JSON object leave alone is left alone by
`json.Unmarshal`. -/
theorem unmarshal_keeps {β : Type} (g : Error → β) (data : GoString) (e : Error)
    (hstep : ∀ ms, parseJSON data = some (JValue.obj ms) →
      ∀ acc m, m ∈ ms → g (storeMember acc m).1 = g acc.1) :
    g (unmarshal data e).1 = g e := by
  unfold unmarshal
  cases hp : parseJSON data with
  | none => rfl
  | some v =>
    cases v with
    | obj ms => exact foldl_storeMember_keeps g ms (hstep ms hp) (e, false)
    | _ => rfl

/-- C1, as amended. For every response with a status code outside `[200,399]`
whose body is read to its end without error and, if it is a JSON object, has no
member whose name equals `StatusCode` or `Endpoint` after case folding, `Do`
returns that response (its body consumed and closed) together with an API error
whose `StatusCode` is the status of the response and whose `Endpoint` is the
endpoint path passed to `Do`. -/
theorem Do_api_error_status_and_endpoint (c : Client) (d : Transport)
    (method endpoint : GoString) (payload : Option GoString) (contentType : GoString)
    (req : Request) (resp : Response)
    (hreq : c.buildRequest method (MapBoxEndpoint ++ endpoint) payload contentType
      = Except.ok req)
    (htr : c.httpClient d req = { resp := some resp, err := none })
    (hs : ¬ (200 ≤ resp.StatusCode ∧ resp.StatusCode ≤ 399))
    (hread : resp.Body.fault = none)
    (hkeys : ∀ ms, parseJSON resp.Body.data = some (JValue.obj ms) → ∀ m, m ∈ ms →
      foldName m.1 ≠ foldName (str "StatusCode") ∧ foldName m.1 ≠ foldName (str "Endpoint")) :
    ∃ e, c.Do d method endpoint payload contentType
        = { sent := some req,
            resp := some { resp with Body := { data := [], fault := none, closed := true } },
            err := some (GoErr.api e) }
      ∧ e.StatusCode = resp.StatusCode ∧ e.Endpoint = endpoint := by
  rw [Do_of_response c d method endpoint payload contentType req resp hreq htr,
    checkAPIError_of_body c resp endpoint hs hread]
  have h1 := unmarshal_keeps (fun e => e.StatusCode) resp.Body.data
    { APIError := { Message := [] }, Type_ := [], StatusCode := resp.StatusCode,
      Endpoint := endpoint }
    (fun ms hp acc m hm => storeMember_StatusCode acc m (hkeys ms hp m hm).1)
  have h2 := unmarshal_keeps (fun e => e.Endpoint) resp.Body.data
    { APIError := { Message := [] }, Type_ := [], StatusCode := resp.StatusCode,
      Endpoint := endpoint }
    (fun ms hp acc m hm => storeMember_Endpoint acc m (hkeys ms hp m hm).2)
  simp only at h1 h2
  refine ⟨_, rfl, ?_, ?_⟩
  · split
    · exact h1
    · exact h1
  · split
    · exact h2
    · exact h2

/-- Witness for C1 as amended: a `404` answer with the body
`{"message":"Not Found"}`. -/
theorem Do_api_error_status_and_endpoint_witness :
    ∃ e, sampleClient.Do (answering (sampleResponse 404 "\x7b\"message\":\"Not Found\"\x7d"))
          (str "GET") (str "tokens/v2/user") none (str "application/json")
        = { sent := some (sampleRequest "GET"),
            resp := some { sampleResponse 404 "\x7b\"message\":\"Not Found\"\x7d" with
              Body := { data := [], fault := none, closed := true } },
            err := some (GoErr.api e) }
      ∧ e.StatusCode = (sampleResponse 404 "\x7b\"message\":\"Not Found\"\x7d").StatusCode
      ∧ e.Endpoint = str "tokens/v2/user" :=
  Do_api_error_status_and_endpoint sampleClient
    (answering (sampleResponse 404 "\x7b\"message\":\"Not Found\"\x7d")) (str "GET")
    (str "tokens/v2/user") none (str "application/json") (sampleRequest "GET")
    (sampleResponse 404 "\x7b\"message\":\"Not Found\"\x7d") (by decide) rfl (by decide) rfl
    (fun ms hp m hm => by
      have hdata : parseJSON (sampleResponse 404 "\x7b\"message\":\"Not Found\"\x7d").Body.data
          = some (JValue.obj [(str "message", JValue.str (str "Not Found"))]) := by rfl
      rw [hdata] at hp
      cases hp
      cases hm with
      | head => decide
      | tail _ h => cases h)

/-- C1 fails as stated, at two inputs. A `500` answer whose body breaks off while
it is read gives the wrapped read error, which is not an API error. A `500`
answer to a call on `tokens/v2/user` whose body is
`{"StatusCode":200,"Endpoint":"elsewhere"}` gives an API error with status
code `200` and endpoint `elsewhere`: both fields are taken from the body. -/
theorem Do_api_error_status_and_endpoint_counterexample :
    ((sampleClient.Do (answering brokenResponse) (str "GET") (str "tokens/v2/user") none
        (str "application/json")).err
      = some (GoErr.wrapped (str "read error response: ") (GoErr.lib "unexpected EOF") [])
      ∧ ¬ ∃ e, (sampleClient.Do (answering brokenResponse) (str "GET") (str "tokens/v2/user") none
        (str "application/json")).err = some (GoErr.api e))
    ∧ ((sampleClient.Do
        (answering (sampleResponse 500
          "\x7b\"StatusCode\":200,\"Endpoint\":\"elsewhere\"\x7d"))
        (str "GET") (str "tokens/v2/user") none (str "application/json")).err
      = some (GoErr.api { APIError := { Message := [] }, Type_ := [], StatusCode := 200,
                          Endpoint := str "elsewhere" })
      ∧ ¬ ∃ e, (sampleClient.Do
          (answering (sampleResponse 500
            "\x7b\"StatusCode\":200,\"Endpoint\":\"elsewhere\"\x7d"))
          (str "GET") (str "tokens/v2/user") none (str "application/json")).err
          = some (GoErr.api e)
        ∧ e.StatusCode = 500 ∧ e.Endpoint = str "tokens/v2/user") := by
  have h1 : (sampleClient.Do (answering brokenResponse) (str "GET") (str "tokens/v2/user") none
        (str "application/json")).err
      = some (GoErr.wrapped (str "read error response: ") (GoErr.lib "unexpected EOF") []) := by
    decide
  have h2 : (sampleClient.Do
        (answering (sampleResponse 500
          "\x7b\"StatusCode\":200,\"Endpoint\":\"elsewhere\"\x7d"))
        (str "GET") (str "tokens/v2/user") none (str "application/json")).err
      = some (GoErr.api { APIError := { Message := [] }, Type_ := [], StatusCode := 200,
                          Endpoint := str "elsewhere" }) := by
    decide
  refine ⟨⟨h1, ?_⟩, h2, ?_⟩
  · rintro ⟨e, he⟩
    rw [h1] at he
    cases he
  · rintro ⟨e, he, hcode, _⟩
    rw [h2] at he
    cases he
    revert hcode
    decide

/-- C10, as amended. For every response with a status code outside `[200,399]`
whose body is read to its end, is a JSON object that `json.Unmarshal` decodes
without error, and has no member whose name equals `error` after case folding,
the API error `Do` returns has an empty message, and `Error()` renders the
status code and endpoint it holds followed by nothing but a space. -/
theorem Do_object_without_error_member (c : Client) (d : Transport)
    (method endpoint : GoString) (payload : Option GoString) (contentType : GoString)
    (req : Request) (resp : Response) (ms : List (GoString × JValue)) (e0 : Error)
    (hreq : c.buildRequest method (MapBoxEndpoint ++ endpoint) payload contentType
      = Except.ok req)
    (htr : c.httpClient d req = { resp := some resp, err := none })
    (hs : ¬ (200 ≤ resp.StatusCode ∧ resp.StatusCode ≤ 399))
    (hread : resp.Body.fault = none)
    (hparse : parseJSON resp.Body.data = some (JValue.obj ms))
    (hno : ∀ m, m ∈ ms → foldName m.1 ≠ foldName (str "error"))
    (hdec : (unmarshal resp.Body.data e0).2 = none) :
    ∃ e, (c.Do d method endpoint payload contentType).err = some (GoErr.api e)
      ∧ e.APIError.Message = []
      ∧ e.Error = str "API Error: " ++ formatInt e.StatusCode ++ str " " ++ e.Endpoint
          ++ str " " := by
  rw [Do_of_response c d method endpoint payload contentType req resp hreq htr,
    checkAPIError_of_body c resp endpoint hs hread]
  rw [unmarshal_err_indep resp.Body.data e0
    { APIError := { Message := [] }, Type_ := [], StatusCode := resp.StatusCode,
      Endpoint := endpoint }] at hdec
  rw [if_pos hdec]
  have h1 := unmarshal_keeps (fun e => e.APIError) resp.Body.data
    { APIError := { Message := [] }, Type_ := [], StatusCode := resp.StatusCode,
      Endpoint := endpoint }
    (fun ms1 hp acc m hm => by
      rw [hparse] at hp
      cases hp
      exact storeMember_APIError acc m (hno m hm))
  simp only at h1
  refine ⟨_, rfl, ?_, ?_⟩
  · rw [h1]
  · unfold Error.Error
    rw [h1]
    exact List.append_nil _

/-- Witness for C10 as amended: a `404` answer with the body
`{"message":"Not Found"}`. -/
theorem Do_object_without_error_member_witness :
    ∃ e, (sampleClient.Do (answering (sampleResponse 404 "\x7b\"message\":\"Not Found\"\x7d"))
        (str "GET") (str "tokens/v2/user") none (str "application/json")).err
        = some (GoErr.api e)
      ∧ e.APIError.Message = []
      ∧ e.Error = str "API Error: " ++ formatInt e.StatusCode ++ str " " ++ e.Endpoint
          ++ str " " :=
  Do_object_without_error_member sampleClient
    (answering (sampleResponse 404 "\x7b\"message\":\"Not Found\"\x7d")) (str "GET")
    (str "tokens/v2/user") none (str "application/json") (sampleRequest "GET")
    (sampleResponse 404 "\x7b\"message\":\"Not Found\"\x7d")
    [(str "message", JValue.str (str "Not Found"))]
    { APIError := { Message := [] }, Type_ := [], StatusCode := 0, Endpoint := [] }
    (by decide) rfl (by decide) rfl rfl
    (fun m hm => by
      cases hm with
      | head => decide
      | tail _ h => cases h)
    (by decide)

/-- C10 fails as stated, at two inputs, both valid JSON objects without a member
named `error`. For the body `{"Error":{"message":"boom"}}` the member `Error`
is matched to the field tagged `error` without regard to case, and the message
is `boom`. For the body `{"type":5}` decoding returns a type error, and the
message is the raw body. -/
theorem Do_object_without_error_member_counterexample :
    (sampleClient.Do
        (answering (sampleResponse 404 "\x7b\"Error\":\x7b\"message\":\"boom\"\x7d\x7d"))
        (str "GET") (str "tokens/v2/user") none (str "application/json")).err
      = some (GoErr.api { APIError := { Message := str "boom" }, Type_ := [], StatusCode := 404,
                          Endpoint := str "tokens/v2/user" })
    ∧ str "boom" ≠ []
    ∧ (sampleClient.Do (answering (sampleResponse 404 "\x7b\"type\":5\x7d"))
        (str "GET") (str "tokens/v2/user") none (str "application/json")).err
      = some (GoErr.api { APIError := { Message := str "\x7b\"type\":5\x7d" }, Type_ := [],
                          StatusCode := 404, Endpoint := str "tokens/v2/user" })
    ∧ str "\x7b\"type\":5\x7d" ≠ [] := by
  refine ⟨?_, ?_, ?_, ?_⟩ <;> decide

/-! ## Decoding the error envelope -/

/-- Decoding the encoding of a rune that is a Unicode scalar value. -/
theorem decodeRune_encodeRune (n : Nat) (rest : GoString)
    (hv : n < 0xD800 ∨ (0xDFFF < n ∧ n < 0x110000)) :
    decodeRune (encodeRune n ++ rest) = (n, (encodeRune n).length) := by
  unfold encodeRune
  by_cases h1 : n < 0x80
  · simp [h1, decodeRune]
  · rw [if_neg h1]
    by_cases h2 : n < 0x800
    · rw [if_pos h2]
      have a1 : ¬ (0xC0 + n / 64 < 0x80) := by omega
      have a2 : 0xC2 ≤ 0xC0 + n / 64 ∧ 0xC0 + n / 64 ≤ 0xDF := by omega
      have a3 : 0x80 ≤ 0x80 + n % 64 ∧ 0x80 + n % 64 ≤ 0xBF := by omega
      have a4 : (0xC0 + n / 64 - 0xC0) * 64 + (0x80 + n % 64 - 0x80) = n := by omega
      simp only [List.cons_append, List.nil_append, decodeRune, a1, a2, a3, a4, if_true,
        if_false, and_self, List.length_cons, List.length_nil]
    · rw [if_neg h2]
      have h3 : ¬ (0xD800 ≤ n ∧ n < 0xE000) := by omega
      rw [if_neg h3]
      by_cases h4 : n < 0x10000
      · rw [if_pos h4]
        have a1 : ¬ (0xE0 + n / 4096 < 0x80) := by omega
        have a2 : ¬ (0xC2 ≤ 0xE0 + n / 4096 ∧ 0xE0 + n / 4096 ≤ 0xDF) := by omega
        have a3 : 0xE0 ≤ 0xE0 + n / 4096 ∧ 0xE0 + n / 4096 ≤ 0xEF := by omega
        have a4 : (if 0xE0 + n / 4096 = 0xE0 then 0xA0 else 0x80) ≤ 0x80 + n / 64 % 64
            ∧ 0x80 + n / 64 % 64 ≤ (if 0xE0 + n / 4096 = 0xED then 0x9F else 0xBF)
            ∧ 0x80 ≤ 0x80 + n % 64 ∧ 0x80 + n % 64 ≤ 0xBF := by
          split <;> split <;> omega
        have a5 : (0xE0 + n / 4096 - 0xE0) * 4096 + (0x80 + n / 64 % 64 - 0x80) * 64
            + (0x80 + n % 64 - 0x80) = n := by omega
        simp only [List.cons_append, List.nil_append, decodeRune, a1, a2, a3, a4, a5, if_true,
          if_false, and_self, List.length_cons, List.length_nil]
      · rw [if_neg h4]
        have h5 : n < 0x110000 := by omega
        rw [if_pos h5]
        have a1 : ¬ (0xF0 + n / 262144 < 0x80) := by omega
        have a2 : ¬ (0xC2 ≤ 0xF0 + n / 262144 ∧ 0xF0 + n / 262144 ≤ 0xDF) := by omega
        have a3 : ¬ (0xE0 ≤ 0xF0 + n / 262144 ∧ 0xF0 + n / 262144 ≤ 0xEF) := by omega
        have a4 : 0xF0 ≤ 0xF0 + n / 262144 ∧ 0xF0 + n / 262144 ≤ 0xF4 := by omega
        have a5 : (if 0xF0 + n / 262144 = 0xF0 then 0x90 else 0x80) ≤ 0x80 + n / 4096 % 64
            ∧ 0x80 + n / 4096 % 64 ≤ (if 0xF0 + n / 262144 = 0xF4 then 0x8F else 0xBF)
            ∧ 0x80 ≤ 0x80 + n / 64 % 64 ∧ 0x80 + n / 64 % 64 ≤ 0xBF
            ∧ 0x80 ≤ 0x80 + n % 64 ∧ 0x80 + n % 64 ≤ 0xBF := by
          split <;> split <;> omega
        have a6 : (0xF0 + n / 262144 - 0xF0) * 262144 + (0x80 + n / 4096 % 64 - 0x80) * 4096
            + (0x80 + n / 64 % 64 - 0x80) * 64 + (0x80 + n % 64 - 0x80) = n := by omega
        simp only [List.cons_append, List.nil_append, decodeRune, a1, a2, a3, a4, a5, a6,
          if_true, if_false, and_self, List.length_cons, List.length_nil]

/-- The first byte of the encoding of a rune outside ASCII is outside ASCII. -/
theorem encodeRune_head (n : Nat) (h : ¬ n < 0x80) :
    ∃ b tail, encodeRune n = b :: tail ∧ ¬ b < 0x80 ∧ b ≠ 0x22 ∧ b ≠ 0x5C := by
  unfold encodeRune
  rw [if_neg h]
  split
  · exact ⟨_, _, rfl, by omega, by omega, by omega⟩
  · split
    · exact ⟨_, _, rfl, by omega, by omega, by omega⟩
    · split
      · exact ⟨_, _, rfl, by omega, by omega, by omega⟩
      · split
        · exact ⟨_, _, rfl, by omega, by omega, by omega⟩
        · exact ⟨_, _, rfl, by omega, by omega, by omega⟩

/-- Bytes already interpreted are passed over. -/
theorem unquoteFrom_skip (pre rest : GoString) :
    unquoteFrom pre.length (pre ++ rest) = unquoteFrom 0 rest := by
  induction pre with
  | nil => rfl
  | cons x pre ih =>
    simp only [List.length_cons, List.cons_append]
    rw [unquoteFrom]
    exact ih

/-- A hexadecimal digit is read back as its value. -/
theorem unhex_hexDigit (upper : Bool) (d : Nat) (hd : d < 16) :
    unhex (hexDigit upper d) = some d := by
  unfold hexDigit unhex
  by_cases h10 : d < 10
  · rw [if_pos h10]
    have a1 : 0x30 ≤ 0x30 + d ∧ 0x30 + d ≤ 0x39 := by omega
    rw [if_pos a1]
    congr 1
    omega
  · rw [if_neg h10]
    cases upper with
    | true =>
      simp only [if_true]
      have a1 : ¬ (0x30 ≤ 0x41 + (d - 10) ∧ 0x41 + (d - 10) ≤ 0x39) := by omega
      have a2 : ¬ (0x61 ≤ 0x41 + (d - 10) ∧ 0x41 + (d - 10) ≤ 0x66) := by omega
      have a3 : 0x41 ≤ 0x41 + (d - 10) ∧ 0x41 + (d - 10) ≤ 0x46 := by omega
      rw [if_neg a1, if_neg a2, if_pos a3]
      congr 1
      omega
    | false =>
      simp only [Bool.false_eq_true, if_false]
      have a1 : ¬ (0x30 ≤ 0x61 + (d - 10) ∧ 0x61 + (d - 10) ≤ 0x39) := by omega
      have a2 : 0x61 ≤ 0x61 + (d - 10) ∧ 0x61 + (d - 10) ≤ 0x66 := by omega
      rw [if_neg a1, if_pos a2]
      congr 1
      omega

/-- A `\u` escape is read back as its code unit. -/
theorem getu4_escapeU (upper : Bool) (u : Nat) (rest : GoString) (hu : u < 65536) :
    getu4 (escapeU upper u ++ rest) = some u := by
  unfold escapeU
  simp only [List.cons_append, List.nil_append, getu4, and_self, if_true]
  rw [unhex_hexDigit upper (u / 4096) (by omega), unhex_hexDigit upper (u / 256 % 16) (by omega),
    unhex_hexDigit upper (u / 16 % 16) (by omega), unhex_hexDigit upper (u % 16) (by omega)]
  simp only [Option.some.injEq]
  omega

/-- A two-character escape is read back as the character it stands for. -/
theorem unquoteFrom_short (n l : Nat) (rest : GoString) (h : shortEscape n = some l) :
    unquoteFrom 0 (0x5C :: l :: rest) = emit (encodeRune n) (unquoteFrom 0 rest) := by
  have hskip : unquoteFrom 1 (l :: rest) = unquoteFrom 0 rest := unquoteFrom_skip [l] rest
  unfold shortEscape at h
  split_ifs at h with h1 h2 h3 h4 h5 h6 h7 h8 <;> cases h <;> subst_vars <;>
    rw [unquoteFrom] <;> simp [simpleEscape, encodeRune, hskip]

/-- An ASCII byte that is neither a quote, a backslash nor a control byte stands
for itself. -/
theorem unquoteFrom_ascii (c : Nat) (s : GoString) (hq : c ≠ 0x22) (hb : c ≠ 0x5C)
    (h20 : ¬ c < 0x20) (h80 : c < 0x80) :
    unquoteFrom 0 (c :: s) = emit [c] (unquoteFrom 0 s) := by
  rw [unquoteFrom.eq_def]
  simp only [hq, hb, h20, h80, if_true, if_false]

/-- A byte outside ASCII starts a rune, which is coerced to well-formed UTF-8. -/
theorem unquoteFrom_multibyte (c : Nat) (s : GoString) (h80 : ¬ c < 0x80) :
    unquoteFrom 0 (c :: s)
      = emit (encodeRune (decodeRune (c :: s)).1)
          (unquoteFrom ((decodeRune (c :: s)).2 - 1) s) := by
  have hq : c ≠ 0x22 := by omega
  have hb : c ≠ 0x5C := by omega
  have h20 : ¬ c < 0x20 := by omega
  rw [unquoteFrom.eq_def]
  simp only [hq, hb, h20, h80, if_false]

/-- A character written as it is, is read back. -/
theorem unquoteFrom_raw (n : Nat) (rest : GoString)
    (hv : n < 0xD800 ∨ (0xDFFF < n ∧ n < 0x110000))
    (h20 : 0x20 ≤ n) (hq : n ≠ 0x22) (hb : n ≠ 0x5C) :
    unquoteFrom 0 (encodeRune n ++ rest) = emit (encodeRune n) (unquoteFrom 0 rest) := by
  by_cases h80 : n < 0x80
  · have he : encodeRune n = [n] := by unfold encodeRune; rw [if_pos h80]
    rw [he]
    exact unquoteFrom_ascii n rest hq hb (by omega) h80
  · obtain ⟨b, tail, he, hb80, hbq, hbb⟩ := encodeRune_head n h80
    have hd := decodeRune_encodeRune n rest hv
    rw [he] at hd ⊢
    simp only [List.cons_append] at hd ⊢
    rw [unquoteFrom_multibyte b (tail ++ rest) hb80, hd]
    simp only [List.length_cons, Nat.add_sub_cancel]
    rw [unquoteFrom_skip tail rest, he]

/-- A `\u` escape of a code unit that is not a surrogate is read back as the
character with that code. -/
theorem unquoteFrom_escapeU (upper : Bool) (u : Nat) (rest : GoString) (hu : u < 65536)
    (hs : isSurrogate u = false) :
    unquoteFrom 0 (escapeU upper u ++ rest) = emit (encodeRune u) (unquoteFrom 0 rest) := by
  have hg := getu4_escapeU upper u rest hu
  unfold escapeU at hg ⊢
  simp only [List.cons_append, List.nil_append] at hg ⊢
  rw [unquoteFrom]
  simp only [hg, hs]
  simp only [Nat.reduceEqDiff, if_false, if_true, Bool.false_eq_true]
  exact congrArg _ (unquoteFrom_skip [0x75, _, _, _, _] rest)

/-- Bytes already interpreted are passed over, the count given explicitly. -/
theorem unquoteFrom_skip_eq (k : Nat) (pre rest : GoString) (h : pre.length = k) :
    unquoteFrom k (pre ++ rest) = unquoteFrom 0 rest := by
  subst h
  exact unquoteFrom_skip pre rest

/-- Two `\u` escapes that form a surrogate pair are read back as one rune. -/
theorem unquoteFrom_surrogates (upper : Bool) (rr rr1 n : Nat) (rest : GoString)
    (hrr : rr < 65536) (hrr1 : rr1 < 65536)
    (hsur : isSurrogate rr = true) (hdec : utf16DecodeRune rr rr1 = n) (hne : n ≠ 0xFFFD) :
    unquoteFrom 0 (escapeU upper rr ++ (escapeU upper rr1 ++ rest))
      = emit (encodeRune n) (unquoteFrom 0 rest) := by
  have hg1 := getu4_escapeU upper rr (escapeU upper rr1 ++ rest) hrr
  have hg2 := getu4_escapeU upper rr1 rest hrr1
  have hskip : unquoteFrom 11 (0x75 :: hexDigit upper (rr / 4096)
        :: hexDigit upper (rr / 256 % 16) :: hexDigit upper (rr / 16 % 16)
        :: hexDigit upper (rr % 16) :: (escapeU upper rr1 ++ rest))
      = unquoteFrom 0 rest :=
    unquoteFrom_skip_eq 11 ([0x75, hexDigit upper (rr / 4096), hexDigit upper (rr / 256 % 16),
      hexDigit upper (rr / 16 % 16), hexDigit upper (rr % 16)] ++ escapeU upper rr1) rest rfl
  generalize htail : escapeU upper rr1 ++ rest = tail2 at *
  unfold escapeU at hg1 ⊢
  simp only [List.cons_append, List.nil_append] at hg1 ⊢
  rw [unquoteFrom]
  simp only [hg1, hsur, List.drop, hg2, hdec]
  simp only [Nat.reduceEqDiff, if_false, if_true, ne_eq, hne, not_false_eq_true]
  rw [hskip]

/-- A surrogate pair of `\u` escapes is read back as the character it encodes. -/
theorem unquoteFrom_escapeU_pair (upper : Bool) (n : Nat) (rest : GoString)
    (hlo : 0x10000 ≤ n) (hhi : n < 0x110000) :
    unquoteFrom 0 (escapeU upper (0xD800 + (n - 0x10000) / 1024)
        ++ (escapeU upper (0xDC00 + (n - 0x10000) % 1024) ++ rest))
      = emit (encodeRune n) (unquoteFrom 0 rest) := by
  apply unquoteFrom_surrogates
  · omega
  · omega
  · unfold isSurrogate
    simp only [Bool.and_eq_true, decide_eq_true_eq]
    omega
  · unfold utf16DecodeRune
    have hc : 0xD800 ≤ 0xD800 + (n - 0x10000) / 1024
        ∧ 0xD800 + (n - 0x10000) / 1024 < 0xDC00
        ∧ 0xDC00 ≤ 0xDC00 + (n - 0x10000) % 1024
        ∧ 0xDC00 + (n - 0x10000) % 1024 < 0xE000 := by omega
    rw [if_pos hc]
    omega
  · omega

/-- A character of a JSON string, however the encoder wrote it, is read back. -/
theorem unquoteFrom_quoteChar (form : Char → CharForm) (upper : Bool) (c : Char)
    (rest : GoString) :
    unquoteFrom 0 (quoteChar form upper c ++ rest)
      = emit (encodeRune c.toNat) (unquoteFrom 0 rest) := by
  have hv : c.toNat < 0xD800 ∨ (0xDFFF < c.toNat ∧ c.toNat < 0x110000) := c.valid
  unfold quoteChar
  split
  · rename_i h
    cases hl : shortEscape c.toNat with
    | none => rw [hl] at h; simp at h
    | some l =>
      simp only [Option.getD_some, List.cons_append, List.nil_append]
      exact unquoteFrom_short c.toNat l rest hl
  · split
    · rename_i h
      exact unquoteFrom_raw c.toNat rest hv h.2.1 h.2.2.1 h.2.2.2
    · split
      · rename_i h
        have hs : isSurrogate c.toNat = false := by
          unfold isSurrogate
          rcases hv with h1 | h1
          · simp only [Bool.and_eq_false_imp, decide_eq_true_eq, decide_eq_false_iff_not]
            omega
          · simp only [Bool.and_eq_false_imp, decide_eq_true_eq, decide_eq_false_iff_not]
            omega
        exact unquoteFrom_escapeU upper c.toNat rest h hs
      · rename_i h
        rw [List.append_assoc]
        exact unquoteFrom_escapeU_pair upper c.toNat rest (by omega) (by omega)

/-- The characters of a JSON string up to its closing quote are read back as the
UTF-8 text of the string. -/
theorem unquoteFrom_quoteChars (form : Char → CharForm) (upper : Bool) (cs : List Char)
    (rest : GoString) :
    unquoteFrom 0 (quoteChars form upper cs ++ 0x22 :: rest) = some (encodeChars cs, rest) := by
  induction cs with
  | nil =>
    simp only [quoteChars, List.nil_append, encodeChars]
    rw [unquoteFrom.eq_def]
    simp
  | cons c cs ih =>
    simp only [quoteChars, List.append_assoc, encodeChars]
    rw [unquoteFrom_quoteChar, ih]
    rfl

/-- A string value is scanned by `unquoteFrom`. -/
theorem parseValue_string (fuel depth : Nat) (s : GoString) :
    parseValue (fuel + 1) depth (0x22 :: s)
      = (unquoteFrom 0 s).map fun p => (JValue.str p.1, p.2) := by
  rw [parseValue]
  simp

/-- An object that starts with a member is parsed by `parseMembers`. -/
theorem parseValue_object (fuel depth d : Nat) (s : GoString) (hdepth : depth < maxNestingDepth)
    (hs : isSpace d = false) (hd : d ≠ 0x7D) :
    parseValue (fuel + 1) depth (0x7B :: d :: s)
      = (parseMembers fuel (depth + 1) (d :: s)).map fun p => (JValue.obj p.1, p.2) := by
  rw [parseValue]
  have h1 : ¬ maxNestingDepth ≤ depth := by omega
  simp only [if_true, h1, if_false, skipWS, hs, Bool.false_eq_true, hd]

/-- A member whose name is followed at once by a colon. -/
theorem parseMembers_member (fuel depth : Nat) (s s1 key : GoString)
    (hkey : unquoteFrom 0 s = some (key, 0x3A :: s1)) :
    parseMembers (fuel + 1) depth (0x22 :: s)
      = (match parseValue fuel depth (skipWS s1) with
        | none => none
        | some (v, s3) =>
          match skipWS s3 with
          | [] => none
          | d :: s4 =>
            if d = 0x2C then
              (parseMembers fuel depth (skipWS s4)).map fun p => ((key, v) :: p.1, p.2)
            else if d = 0x7D then some ([(key, v)], s4)
            else none) := by
  rw [parseMembers]
  simp only [if_true, hkey, skipWS, isSpace]
  simp

/-- A name without quotes, backslashes or control characters is read as it is. -/
theorem unquoteFrom_name (name : String) (rest : GoString)
    (h : quoteChars plainForm false name.data = str name) :
    unquoteFrom 0 (str name ++ 0x22 :: rest) = some (str name, rest) := by
  rw [← h, unquoteFrom_quoteChars, h]
  rfl

/-- The bytes of the error envelope. -/
theorem errorEnvelope_bytes (form : Char → CharForm) (upper : Bool) (m t : String) :
    errorEnvelope form upper m t
      = 0x7B :: 0x22 :: (str "error" ++ 0x22 :: 0x3A :: 0x7B :: 0x22 :: (str "message"
          ++ 0x22 :: 0x3A :: 0x22 :: (quoteChars form upper m.data
          ++ 0x22 :: 0x7D :: 0x2C :: 0x22 :: (str "type"
          ++ 0x22 :: 0x3A :: 0x22 :: (quoteChars form upper t.data ++ 0x22 :: [0x7D]))))) := by
  have h1 : str "\x7b\"error\":\x7b\"message\":"
      = 0x7B :: 0x22 :: (str "error" ++ 0x22 :: 0x3A :: 0x7B :: 0x22 :: (str "message"
          ++ 0x22 :: 0x3A :: [])) := by decide
  have h2 : str "\x7d,\"type\":"
      = 0x7D :: 0x2C :: 0x22 :: (str "type" ++ 0x22 :: 0x3A :: []) := by decide
  have h3 : str "\x7d" = [0x7D] := by decide
  unfold errorEnvelope jsonString
  rw [h1, h2, h3]
  simp only [List.append_assoc, List.cons_append, List.nil_append]

/-- White space is skipped up to the first byte that is none. -/
theorem skipWS_cons (c : Nat) (s : GoString) (h : isSpace c = false) :
    skipWS (c :: s) = c :: s := by
  simp [skipWS, h]

/-- The error envelope parses to the object it denotes. -/
theorem parseValue_errorEnvelope (form : Char → CharForm) (upper : Bool) (m t : String)
    (n : Nat) :
    parseValue (n + 6) 0 (errorEnvelope form upper m t)
      = some (JValue.obj [(str "error", JValue.obj [(str "message", JValue.str (str m))]),
          (str "type", JValue.str (str t))], []) := by
  rw [errorEnvelope_bytes]
  rw [parseValue_object (n + 5) 0 0x22 _ (by decide) (by decide) (by decide)]
  rw [parseMembers_member (n + 4) 1 _ _ (str "error") (unquoteFrom_name "error" _ (by decide))]
  rw [skipWS_cons 0x7B _ (by decide)]
  rw [parseValue_object (n + 3) 1 0x22 _ (by decide) (by decide) (by decide)]
  rw [parseMembers_member (n + 2) 2 _ _ (str "message")
    (unquoteFrom_name "message" _ (by decide))]
  rw [skipWS_cons 0x22 _ (by decide)]
  rw [parseValue_string (n + 1) 2, unquoteFrom_quoteChars]
  simp only [Option.map_some']
  rw [skipWS_cons 0x7D _ (by decide)]
  simp only [Nat.reduceEqDiff, if_false, if_true, Option.map_some']
  rw [skipWS_cons 0x2C _ (by decide)]
  simp only [if_true]
  rw [skipWS_cons 0x22 _ (by decide)]
  rw [parseMembers_member (n + 3) 1 _ _ (str "type") (unquoteFrom_name "type" _ (by decide))]
  rw [skipWS_cons 0x22 _ (by decide)]
  rw [parseValue_string (n + 2) 1, unquoteFrom_quoteChars]
  simp only [Option.map_some']
  rw [skipWS_cons 0x7D _ (by decide)]
  simp only [Nat.reduceEqDiff, if_false, if_true, Option.map_some']
  rfl

/-- `json.Unmarshal` of the error envelope sets the message and the type, leaves
the other fields alone and returns no error. -/
theorem unmarshal_errorEnvelope (form : Char → CharForm) (upper : Bool) (m t : String)
    (e : Error) :
    unmarshal (errorEnvelope form upper m t) e
      = ({ APIError := { Message := str m }, Type_ := str t, StatusCode := e.StatusCode,
           Endpoint := e.Endpoint }, none) := by
  have hfuel : ∃ n, 2 * (errorEnvelope form upper m t).length + 2 = n + 6 :=
    ⟨2 * (errorEnvelope form upper m t).length - 4, by
      rw [errorEnvelope_bytes]
      simp only [List.length_cons, List.length_append]
      omega⟩
  obtain ⟨n, hn⟩ := hfuel
  have hskip : skipWS (errorEnvelope form upper m t) = errorEnvelope form upper m t := by
    rw [errorEnvelope_bytes]
    exact skipWS_cons 0x7B _ (by decide)
  have hparse : parseJSON (errorEnvelope form upper m t)
      = some (JValue.obj [(str "error", JValue.obj [(str "message", JValue.str (str m))]),
          (str "type", JValue.str (str t))]) := by
    unfold parseJSON
    rw [hskip, hn, parseValue_errorEnvelope]
    rfl
  have h1 : lookupField errorFields (str "error") = some ErrorField.apiError := by decide
  have h2 : lookupField errorFields (str "type") = some ErrorField.type := by decide
  have h3 : lookupField apiErrorBodyFields (str "message") = some () := by decide
  unfold unmarshal
  rw [hparse]
  simp [storeError, storeMember, storeAPIErrorBody, storeBodyMember, storeString, h1, h2, h3]

/-- C4. For every pair of strings `m` and `t`, however a JSON encoder writes them
(characters as they are, by two-character escapes or by `\u` escapes, in either
case of hexadecimal digits), and every status code outside `[200,399]`: when the
body of the response is the JSON object `{"error":{"message":m},"type":t}`, the
error `Do` returns is an API error with message `m` and type `t` (and the status
and endpoint of the call). -/
theorem Do_decodes_error_envelope (c : Client) (d : Transport) (method endpoint : GoString)
    (payload : Option GoString) (contentType : GoString) (req : Request) (resp : Response)
    (form : Char → CharForm) (upper : Bool) (m t : String)
    (hreq : c.buildRequest method (MapBoxEndpoint ++ endpoint) payload contentType
      = Except.ok req)
    (htr : c.httpClient d req = { resp := some resp, err := none })
    (hs : ¬ (200 ≤ resp.StatusCode ∧ resp.StatusCode ≤ 399))
    (hread : resp.Body.fault = none)
    (hbody : resp.Body.data = errorEnvelope form upper m t) :
    (c.Do d method endpoint payload contentType).err
      = some (GoErr.api { APIError := { Message := str m }, Type_ := str t,
                          StatusCode := resp.StatusCode, Endpoint := endpoint }) := by
  rw [Do_of_response c d method endpoint payload contentType req resp hreq htr,
    checkAPIError_of_body c resp endpoint hs hread, hbody, unmarshal_errorEnvelope]
  simp

/-- Witness for C4: message `bad scope`, type `invalid_request`, status `422`. -/
theorem Do_decodes_error_envelope_witness :
    (sampleClient.Do
        (answering (sampleResponse 422
          "\x7b\"error\":\x7b\"message\":\"bad scope\"\x7d,\"type\":\"invalid_request\"\x7d"))
        (str "POST") (str "tokens/v2/user") (some (str "\x7b\x7d")) (str "application/json")).err
      = some (GoErr.api { APIError := { Message := str "bad scope" },
                          Type_ := str "invalid_request", StatusCode := 422,
                          Endpoint := str "tokens/v2/user" }) :=
  Do_decodes_error_envelope sampleClient
    (answering (sampleResponse 422
      "\x7b\"error\":\x7b\"message\":\"bad scope\"\x7d,\"type\":\"invalid_request\"\x7d"))
    (str "POST") (str "tokens/v2/user") (some (str "\x7b\x7d")) (str "application/json")
    (sampleRequestWithBody "POST" "\x7b\x7d")
    (sampleResponse 422
      "\x7b\"error\":\x7b\"message\":\"bad scope\"\x7d,\"type\":\"invalid_request\"\x7d")
    plainForm false "bad scope" "invalid_request" (by decide) rfl (by decide) rfl (by decide)

/-! ## The access token in the query -/

/-- An upper-case hexadecimal digit is read back as its value. -/
theorem unhex_upperhex (d : Nat) (hd : d < 16) : unhex (upperhex d) = some d := by
  unfold upperhex unhex
  by_cases h10 : d < 10
  · rw [if_pos h10]
    have a1 : 0x30 ≤ 0x30 + d ∧ 0x30 + d ≤ 0x39 := by omega
    rw [if_pos a1]
    congr 1
    omega
  · rw [if_neg h10]
    have a1 : ¬ (0x30 ≤ 0x41 + (d - 10) ∧ 0x41 + (d - 10) ≤ 0x39) := by omega
    have a2 : ¬ (0x61 ≤ 0x41 + (d - 10) ∧ 0x41 + (d - 10) ≤ 0x66) := by omega
    have a3 : 0x41 ≤ 0x41 + (d - 10) ∧ 0x41 + (d - 10) ≤ 0x46 := by omega
    rw [if_neg a1, if_neg a2, if_pos a3]
    congr 1
    omega

/-- An upper-case hexadecimal digit is none of `&`, `;`, `=`. -/
theorem upperhex_not_sep (d : Nat) :
    upperhex d ≠ 0x26 ∧ upperhex d ≠ 0x3B ∧ upperhex d ≠ 0x3D := by
  unfold upperhex
  split <;> omega

/-- In a query component `&`, `;`, `=`, `%` and `+` are escaped. -/
theorem shouldEscape_query_sep (c : Nat)
    (h : c = 0x26 ∨ c = 0x3B ∨ c = 0x3D ∨ c = 0x25 ∨ c = 0x2B) :
    shouldEscape c Encoding.queryComponent = true := by
  rcases h with h | h | h | h | h <;> subst h <;> decide

/-- An escaped query component contains none of `&`, `;`, `=`. -/
theorem queryEscape_no_sep (s : GoString) (x : Nat) (hx : x ∈ queryEscape s) :
    x ≠ 0x26 ∧ x ≠ 0x3B ∧ x ≠ 0x3D := by
  unfold queryEscape at hx
  induction s with
  | nil => simp [escape] at hx
  | cons c s ih =>
    rw [escape] at hx
    split at hx
    · rcases List.mem_cons.1 hx with h | h
      · subst h; omega
      · exact ih h
    · split at hx
      · rcases List.mem_cons.1 hx with h | h
        · subst h; omega
        · rcases List.mem_cons.1 h with h | h
          · subst h; exact upperhex_not_sep _
          · rcases List.mem_cons.1 h with h | h
            · subst h; exact upperhex_not_sep _
            · exact ih h
      · rename_i hne
        rcases List.mem_cons.1 hx with h | h
        · subst h
          refine ⟨?_, ?_, ?_⟩ <;> intro hc <;> apply hne <;>
            exact shouldEscape_query_sep x (by omega)
        · exact ih h

/-- Unescaping `+` in a query component. -/
theorem unescape_plus (s : GoString) :
    unescape Encoding.queryComponent (0x2B :: s)
      = (unescape Encoding.queryComponent s).map fun t => 0x20 :: t := by
  rw [unescape.eq_def]
  simp

/-- Unescaping a percent escape in a query component. -/
theorem unescape_percent (h1 h2 a b : Nat) (s : GoString) (ha : unhex h1 = some a)
    (hb : unhex h2 = some b) :
    unescape Encoding.queryComponent (0x25 :: h1 :: h2 :: s)
      = (unescape Encoding.queryComponent s).map fun t => (a * 16 + b) :: t := by
  rw [unescape.eq_def]
  simp [ha, hb]

/-- Unescaping any other byte in a query component. -/
theorem unescape_other (c : Nat) (s : GoString) (h25 : c ≠ 0x25) (h2B : c ≠ 0x2B) :
    unescape Encoding.queryComponent (c :: s)
      = (unescape Encoding.queryComponent s).map fun t => c :: t := by
  rw [unescape.eq_def]
  simp [h25, h2B]

/-- Unescaping an escaped query component gives the component back. -/
theorem queryUnescape_queryEscape (s : GoString) (hs : IsBytes s) :
    queryUnescape (queryEscape s) = some s := by
  unfold queryUnescape queryEscape
  induction s with
  | nil => rfl
  | cons c s ih =>
    have hc : c < 256 := hs c (List.mem_cons_self _ _)
    have ih1 := ih (fun b hb => hs b (List.mem_cons_of_mem _ hb))
    rw [escape]
    split
    · rename_i h
      rw [unescape_plus, ih1, h.1]
      rfl
    · split
      · rw [unescape_percent _ _ _ _ _ (unhex_upperhex (c / 16) (by omega))
          (unhex_upperhex (c % 16) (by omega)), ih1]
        have h16 : c / 16 * 16 + c % 16 = c := by omega
        simp [h16]
      · rename_i hsp hne
        have h25 : c ≠ 0x25 := fun h => hne (shouldEscape_query_sep c (by omega))
        have h2B : c ≠ 0x2B := fun h => hne (shouldEscape_query_sep c (by omega))
        rw [unescape_other c _ h25 h2B, ih1]
        rfl

/-- Cutting at a separator that first occurs between two given parts. -/
theorem cut_append (sep : Nat) (a b : GoString) (h : sep ∉ a) :
    cut sep (a ++ sep :: b) = (a, b, true) := by
  induction a with
  | nil => simp [cut]
  | cons c a ih =>
    have hc : c ≠ sep := fun hc => h (hc ▸ List.mem_cons_self _ _)
    have ih1 := ih (fun hm => h (List.mem_cons_of_mem _ hm))
    rw [List.cons_append, cut, if_neg hc, ih1]

/-- A text without the separator is a single piece. -/
theorem splitOn_single (sep : Nat) (p : GoString) (h : sep ∉ p) : splitOn sep p = [p] := by
  induction p with
  | nil => rfl
  | cons c p ih =>
    have hc : c ≠ sep := fun hc => h (hc ▸ List.mem_cons_self _ _)
    have ih1 := ih (fun hm => h (List.mem_cons_of_mem _ hm))
    simp only [splitOn, hc, if_false, ih1]

/-- The first piece of a text ends at the first separator. -/
theorem splitOn_append (sep : Nat) (p rest : GoString) (h : sep ∉ p) :
    splitOn sep (p ++ sep :: rest) = p :: splitOn sep rest := by
  induction p with
  | nil => simp [splitOn]
  | cons c p ih =>
    have hc : c ≠ sep := fun hc => h (hc ▸ List.mem_cons_self _ _)
    have ih1 := ih (fun hm => h (List.mem_cons_of_mem _ hm))
    rw [List.cons_append, splitOn, if_neg hc, ih1]

/-- Splitting what `joinAmp` joined gives the pieces back. -/
theorem splitOn_joinAmp (p : GoString) (ps : List GoString)
    (h : ∀ q, q ∈ p :: ps → 0x26 ∉ q) :
    splitOn 0x26 (joinAmp (p :: ps)) = p :: ps := by
  induction ps generalizing p with
  | nil => exact splitOn_single 0x26 p (h p (List.mem_cons_self _ _))
  | cons q ps ih =>
    rw [joinAmp, splitOn_append 0x26 p _ (h p (List.mem_cons_self _ _)),
      ih q (fun r hr => h r (List.mem_cons_of_mem _ hr))]

/-- `ParseQuery` of joined pieces that are free of `&` handles them one by one. -/
theorem parseQuery_joinAmp (ps : List GoString) (h : ∀ q, q ∈ ps → 0x26 ∉ q) :
    parseQuery (joinAmp ps) = ps.foldl parseQueryStep [] := by
  unfold parseQuery
  cases ps with
  | nil => rfl
  | cons p ps => rw [splitOn_joinAmp p ps h]

/-- The escaped form of a key/value pair, as `Values.Encode` writes it. -/
theorem encodeEntry_eq (e : GoString × List GoString) :
    encodeEntry e
      = (e.2.map fun x => (e.1, x)).map fun p => queryEscape p.1 ++ 0x3D :: queryEscape p.2 := by
  unfold encodeEntry
  rw [List.map_map]
  rfl

/-- The pieces `Values.Encode` joins are the escaped pairs. -/
theorem flatMap_encodeEntry (v : Values) :
    v.flatMap encodeEntry
      = v.pairs.map fun p => queryEscape p.1 ++ 0x3D :: queryEscape p.2 := by
  unfold Values.pairs
  induction v with
  | nil => rfl
  | cons e v ih =>
    simp only [List.flatMap_cons, List.map_append, ih, encodeEntry_eq]

/-- One step of `ParseQuery` on an escaped pair adds the pair. -/
theorem parseQueryStep_escaped (m : Values) (k v : GoString) (hk : IsBytes k)
    (hv : IsBytes v) :
    parseQueryStep m (queryEscape k ++ 0x3D :: queryEscape v) = Values.Add m k v := by
  unfold parseQueryStep
  have h1 : 0x3B ∉ queryEscape k ++ 0x3D :: queryEscape v := by
    intro hm
    rcases List.mem_append.1 hm with h | h
    · exact (queryEscape_no_sep k _ h).2.1 rfl
    · rcases List.mem_cons.1 h with h | h
      · omega
      · exact (queryEscape_no_sep v _ h).2.1 rfl
  have h2 : queryEscape k ++ 0x3D :: queryEscape v ≠ [] := by simp
  have h3 : 0x3D ∉ queryEscape k := fun h => (queryEscape_no_sep k _ h).2.2 rfl
  rw [if_neg h1, if_neg h2, cut_append 0x3D _ _ h3]
  simp only [queryUnescape_queryEscape k hk, queryUnescape_queryEscape v hv]

/-- `ParseQuery` on escaped pairs adds them in order. -/
theorem foldl_parseQueryStep_escaped (l : List (GoString × GoString)) (m : Values)
    (hl : ∀ p, p ∈ l → IsBytes p.1 ∧ IsBytes p.2) :
    (l.map fun p => queryEscape p.1 ++ 0x3D :: queryEscape p.2).foldl parseQueryStep m
      = l.foldl (fun acc p => Values.Add acc p.1 p.2) m := by
  induction l generalizing m with
  | nil => rfl
  | cons p l ih =>
    simp only [List.map_cons, List.foldl_cons]
    rw [parseQueryStep_escaped m p.1 p.2 (hl p (List.mem_cons_self _ _)).1
      (hl p (List.mem_cons_self _ _)).2]
    exact ih _ (fun q hq => hl q (List.mem_cons_of_mem _ hq))

/-- Membership in the pairs of a map. -/
theorem mem_pairs (v : Values) (p : GoString × GoString) :
    p ∈ v.pairs ↔ ∃ e, e ∈ v ∧ p.1 = e.1 ∧ p.2 ∈ e.2 := by
  unfold Values.pairs
  simp only [List.mem_flatMap, List.mem_map]
  constructor
  · rintro ⟨e, he, x, hx, rfl⟩
    exact ⟨e, he, rfl, hx⟩
  · rintro ⟨e, he, h1, h2⟩
    exact ⟨e, he, p.2, h2, by rw [← h1]⟩

/-- The pairs of a map with one more entry. -/
theorem pairs_cons (e : GoString × List GoString) (v : Values) :
    Values.pairs (e :: v) = (e.2.map fun x => (e.1, x)) ++ Values.pairs v := rfl

/-- The pairs after `Values.Add`: those before, and the new one. -/
theorem mem_pairs_Add (m : Values) (k v : GoString) (p : GoString × GoString) :
    p ∈ (Values.Add m k v).pairs ↔ p ∈ m.pairs ∨ p = (k, v) := by
  induction m with
  | nil => simp [Values.Add, Values.pairs]
  | cons e m ih =>
    obtain ⟨k1, vs⟩ := e
    unfold Values.Add
    by_cases hk : k1 = k
    · rw [if_pos hk]
      subst hk
      simp only [pairs_cons, List.mem_append, List.map_append, List.map_cons, List.map_nil,
        List.mem_cons, List.mem_singleton, List.not_mem_nil, or_false]
      tauto
    · rw [if_neg hk]
      simp only [pairs_cons, List.mem_append, ih]
      tauto

/-- The pairs after adding a list of pairs. -/
theorem mem_pairs_foldl_Add (l : List (GoString × GoString)) (m : Values)
    (p : GoString × GoString) :
    p ∈ (l.foldl (fun acc q => Values.Add acc q.1 q.2) m).pairs ↔ p ∈ m.pairs ∨ p ∈ l := by
  induction l generalizing m with
  | nil => simp
  | cons q l ih =>
    simp only [List.foldl_cons, ih, mem_pairs_Add, List.mem_cons]
    tauto

/-- Inserting an entry in key order adds it and nothing else. -/
theorem mem_insertEntry (e f : GoString × List GoString) (v : Values) :
    f ∈ insertEntry e v ↔ f = e ∨ f ∈ v := by
  induction v with
  | nil => simp [insertEntry]
  | cons g v ih =>
    unfold insertEntry
    split
    · simp
    · simp only [List.mem_cons, ih]
      tauto

/-- Ordering the entries by key keeps the entries. -/
theorem mem_sortEntries (f : GoString × List GoString) (v : Values) :
    f ∈ sortEntries v ↔ f ∈ v := by
  induction v with
  | nil => simp [sortEntries]
  | cons e v ih =>
    simp only [sortEntries, mem_insertEntry, ih, List.mem_cons]

/-- The query `Values.Encode` writes holds exactly the pairs of the map. -/
theorem mem_queryPairs_Encode (v : Values) (hv : ∀ p, p ∈ v.pairs → IsBytes p.1 ∧ IsBytes p.2)
    (p : GoString × GoString) :
    p ∈ queryPairs v.Encode ↔ p ∈ v.pairs := by
  have hsort : ∀ q, q ∈ (sortEntries v).pairs ↔ q ∈ v.pairs := by
    intro q
    simp only [mem_pairs, mem_sortEntries]
  unfold queryPairs Values.Encode
  rw [flatMap_encodeEntry, parseQuery_joinAmp, foldl_parseQueryStep_escaped, mem_pairs_foldl_Add]
  · rw [hsort]
    simp [Values.pairs]
  · intro q hq
    exact hv q ((hsort q).1 hq)
  · intro q hq hm
    simp only [List.mem_map] at hq
    obtain ⟨r, _, rfl⟩ := hq
    rcases List.mem_append.1 hm with h | h
    · exact (queryEscape_no_sep r.1 _ h).1 rfl
    · rcases List.mem_cons.1 h with h | h
      · omega
      · exact (queryEscape_no_sep r.2 _ h).1 rfl

/-- The value of a hexadecimal digit is below sixteen. -/
theorem unhex_lt (c a : Nat) (h : unhex c = some a) : a < 16 := by
  unfold unhex at h
  split at h
  · cases h; omega
  · split at h
    · cases h; omega
    · split at h
      · cases h; omega
      · cases h

/-- Unescaping a sequence of bytes gives a sequence of bytes. -/
theorem unescape_bytes (n : Nat) (s t : GoString) (hn : s.length ≤ n)
    (h : unescape Encoding.queryComponent s = some t) (hs : IsBytes s) : IsBytes t := by
  induction n generalizing s t with
  | zero =>
    have : s = [] := List.length_eq_zero.1 (by omega)
    subst this
    rw [unescape] at h
    cases h
    intro b hb
    cases hb
  | succ n ih =>
    cases s with
    | nil =>
      rw [unescape] at h
      cases h
      intro b hb
      cases hb
    | cons c s =>
      by_cases h25 : c = 0x25
      · subst h25
        rw [unescape.eq_def] at h
        simp only [if_true] at h
        split at h
        · rename_i h1 h2 s2
          split at h
          · rename_i a b ha hb
            simp only [Encoding.noConfusion, false_and, if_false, reduceCtorEq] at h
            cases hu : unescape Encoding.queryComponent s2 with
            | none => rw [hu] at h; cases h
            | some t2 =>
              rw [hu] at h
              simp only [Option.map_some', Option.some.injEq] at h
              subst h
              have hlen : s2.length ≤ n := by
                simp only [List.length_cons] at hn
                omega
              have ht2 := ih s2 t2 hlen hu
                (fun x hx => hs x (List.mem_cons_of_mem _ (List.mem_cons_of_mem _
                  (List.mem_cons_of_mem _ hx))))
              intro x hx
              rcases List.mem_cons.1 hx with hx | hx
              · have := unhex_lt _ _ ha
                have := unhex_lt _ _ hb
                omega
              · exact ht2 x hx
          · cases h
        · cases h
      · have hlen : s.length ≤ n := by
          simp only [List.length_cons] at hn
          omega
        have hs1 : IsBytes s := fun x hx => hs x (List.mem_cons_of_mem _ hx)
        by_cases h2B : c = 0x2B
        · subst h2B
          rw [unescape_plus] at h
          cases hu : unescape Encoding.queryComponent s with
          | none => rw [hu] at h; cases h
          | some t2 =>
            rw [hu] at h
            simp only [Option.map_some', Option.some.injEq] at h
            subst h
            intro x hx
            rcases List.mem_cons.1 hx with hx | hx
            · omega
            · exact ih s t2 hlen hu hs1 x hx
        · rw [unescape_other c s h25 h2B] at h
          cases hu : unescape Encoding.queryComponent s with
          | none => rw [hu] at h; cases h
          | some t2 =>
            rw [hu] at h
            simp only [Option.map_some', Option.some.injEq] at h
            subst h
            intro x hx
            rcases List.mem_cons.1 hx with hx | hx
            · rw [hx]; exact hs c (List.mem_cons_self _ _)
            · exact ih s t2 hlen hu hs1 x hx

/-- Both parts of a cut consist of elements of the text. -/
theorem mem_cut (sep : Nat) (s : GoString) (x : Nat) :
    (x ∈ (cut sep s).1 → x ∈ s) ∧ (x ∈ (cut sep s).2.1 → x ∈ s) := by
  induction s with
  | nil => simp [cut]
  | cons c s ih =>
    rw [cut]
    split
    · exact ⟨fun h => (by cases h), fun h => List.mem_cons_of_mem _ h⟩
    · constructor
      · intro h
        rcases List.mem_cons.1 h with h | h
        · rw [h]; exact List.mem_cons_self _ _
        · exact List.mem_cons_of_mem _ (ih.1 h)
      · intro h
        exact List.mem_cons_of_mem _ (ih.2 h)

/-- The pieces of a split consist of elements of the text. -/
theorem mem_splitOn (sep : Nat) (s q : GoString) (x : Nat) (hq : q ∈ splitOn sep s)
    (hx : x ∈ q) : x ∈ s := by
  induction s generalizing q with
  | nil =>
    simp only [splitOn, List.mem_singleton] at hq
    subst hq
    cases hx
  | cons c s ih =>
    rw [splitOn] at hq
    split at hq
    · rcases List.mem_cons.1 hq with h | h
      · subst h; cases hx
      · exact List.mem_cons_of_mem _ (ih q h hx)
    · split at hq
      · rename_i hd tl heq
        rcases List.mem_cons.1 hq with h | h
        · subst h
          rcases List.mem_cons.1 hx with h1 | h1
          · rw [h1]; exact List.mem_cons_self _ _
          · exact List.mem_cons_of_mem _ (ih hd (heq ▸ List.mem_cons_self _ _) h1)
        · exact List.mem_cons_of_mem _ (ih q (heq ▸ List.mem_cons_of_mem _ h) hx)
      · simp only [List.mem_singleton] at hq
        subst hq
        simp only [List.mem_singleton] at hx
        rw [hx]
        exact List.mem_cons_self _ _

/-- One step of `ParseQuery` on a piece of bytes keeps keys and values bytes. -/
theorem parseQueryStep_bytes (m : Values) (piece : GoString) (hp : IsBytes piece)
    (hm : ∀ p, p ∈ m.pairs → IsBytes p.1 ∧ IsBytes p.2) :
    ∀ p, p ∈ (parseQueryStep m piece).pairs → IsBytes p.1 ∧ IsBytes p.2 := by
  unfold parseQueryStep
  split
  · exact hm
  · split
    · exact hm
    · split
      · rename_i key value hk hv
        intro p hp1
        rcases (mem_pairs_Add m key value p).1 hp1 with h | h
        · exact hm p h
        · subst h
          exact ⟨unescape_bytes _ _ key (le_refl _) hk
              (fun x hx => hp x ((mem_cut 0x3D piece x).1 hx)),
            unescape_bytes _ _ value (le_refl _) hv
              (fun x hx => hp x ((mem_cut 0x3D piece x).2 hx))⟩
      · exact hm

/-- The keys and values `ParseQuery` finds in a query of bytes are bytes. -/
theorem parseQuery_bytes (query : GoString) (hq : IsBytes query) :
    ∀ p, p ∈ (parseQuery query).pairs → IsBytes p.1 ∧ IsBytes p.2 := by
  unfold parseQuery
  have key : ∀ (l : List GoString) (m : Values), (∀ q, q ∈ l → IsBytes q) →
      (∀ p, p ∈ m.pairs → IsBytes p.1 ∧ IsBytes p.2) →
      ∀ p, p ∈ (l.foldl parseQueryStep m).pairs → IsBytes p.1 ∧ IsBytes p.2 := by
    intro l
    induction l with
    | nil => intro m _ hm; exact hm
    | cons q l ih =>
      intro m hl hm
      simp only [List.foldl_cons]
      exact ih _ (fun r hr => hl r (List.mem_cons_of_mem _ hr))
        (parseQueryStep_bytes m q (hl q (List.mem_cons_self _ _)) hm)
  exact key _ [] (fun q hq1 x hx => hq x (mem_splitOn 0x26 query q x hq1 hx))
    (fun p hp => by cases hp)

/-- Cutting behind a prefix that is free of the separator. -/
theorem cut_prepend (sep : Nat) (pre s : GoString) (h : sep ∉ pre) :
    cut sep (pre ++ s) = (pre ++ (cut sep s).1, (cut sep s).2.1, (cut sep s).2.2) := by
  induction pre with
  | nil => rfl
  | cons c pre ih =>
    have hc : c ≠ sep := fun hc => h (hc ▸ List.mem_cons_self _ _)
    have ih1 := ih (fun hm => h (List.mem_cons_of_mem _ hm))
    rw [List.cons_append, cut, if_neg hc, ih1]
    rfl

/-- When the only `?` of a text is its last byte, nothing follows the cut. -/
theorem cut_single_last (l : GoString) (h1 : l.getLast? = some 0x3F)
    (h2 : l.count 0x3F = 1) : (cut 0x3F l).2.1 = [] := by
  induction l with
  | nil => rfl
  | cons c l ih =>
    rw [cut]
    by_cases hc : c = 0x3F
    · rw [if_pos hc]
      subst hc
      simp only [List.count_cons_self] at h2
      have h0 : List.count 0x3F l = 0 := by omega
      cases l with
      | nil => rfl
      | cons d l =>
        rw [List.getLast?_cons_cons] at h1
        have hm : 0x3F ∈ d :: l := List.mem_of_getLast?_eq_some h1
        have := List.count_pos_iff.2 hm
        omega
    · rw [if_neg hc]
      simp only
      cases l with
      | nil =>
        simp only [List.getLast?_singleton, Option.some.injEq] at h1
        exact absurd h1 hc
      | cons d l =>
        rw [List.getLast?_cons_cons] at h1
        rw [List.count_cons_of_ne (Ne.symm hc)] at h2
        exact ih h1 h2

/-- The raw query is handed through the last steps of parsing. -/
theorem parseHierarchy_RawQuery (scheme rest : GoString) (force : Bool) (rawQuery : GoString)
    (u : URL) (h : parseHierarchy scheme rest force rawQuery = Except.ok u) :
    u.RawQuery = rawQuery := by
  unfold parseHierarchy at h
  split at h
  · cases h; rfl
  · split at h
    · cases h
    · simp only at h
      split at h
      · cases h
      · split at h
        · cases h
        · cases h; rfl

/-- The raw query of a parsed URL is what follows the first `?` after the scheme. -/
theorem parseAfterScheme_RawQuery (scheme rest : GoString) (u : URL)
    (h : parseAfterScheme scheme rest = Except.ok u) : u.RawQuery = (cut 0x3F rest).2.1 := by
  unfold parseAfterScheme at h
  split at h
  · rename_i hf
    rw [parseHierarchy_RawQuery _ _ _ _ u h, cut_single_last rest hf.1 hf.2]
  · exact parseHierarchy_RawQuery _ _ _ _ u h

/-- Letters followed by a colon are a scheme. -/
theorem scanScheme_letters (sch rest : GoString) (h : ∀ c, c ∈ sch → isAlpha c = true) :
    scanScheme false (sch ++ 0x3A :: rest) = SchemeScan.found sch rest := by
  induction sch with
  | nil =>
    rw [List.nil_append, scanScheme]
    have h1 : ¬ (isAlpha 0x3A = true ∨ ¬ false = true ∧ (isDigit 0x3A = true ∨ 0x3A = 0x2B
        ∨ 0x3A = 0x2D ∨ 0x3A = 0x2E)) := by decide
    rw [if_neg h1]
    simp
  | cons c sch ih =>
    rw [List.cons_append, scanScheme]
    have h1 : isAlpha c = true := h c (List.mem_cons_self _ _)
    rw [if_pos (Or.inl h1), ih (fun d hd => h d (List.mem_cons_of_mem _ hd))]

/-- The scheme of an absolute endpoint is found within `MapBoxEndpoint`. -/
theorem scanScheme_MapBoxEndpoint (rest : GoString) :
    scanScheme true (MapBoxEndpoint ++ rest)
      = SchemeScan.found (str "https") (str "//api.mapbox.com/" ++ rest) := by
  have h : MapBoxEndpoint = 0x68 :: (str "ttps" ++ 0x3A :: str "//api.mapbox.com/") := by
    decide
  have h1 : str "https" = 0x68 :: str "ttps" := by decide
  have h2 : ∀ c, c ∈ str "ttps" → isAlpha c = true := by decide
  rw [h, h1, List.cons_append, List.append_assoc, List.cons_append, scanScheme]
  have h3 : isAlpha 0x68 = true := by decide
  rw [if_pos (Or.inl h3), scanScheme_letters _ _ h2]

/-- The raw query of the URL of an absolute endpoint is the raw query of the
endpoint path. -/
theorem parseURL_RawQuery (endpoint : GoString) (u : URL)
    (h : parseURL (MapBoxEndpoint ++ endpoint) = Except.ok u) :
    u.RawQuery = endpointQuery endpoint := by
  have h23 : 0x23 ∉ MapBoxEndpoint := by decide
  have h3F : 0x3F ∉ str "//api.mapbox.com/" := by decide
  have hq : ∀ v, parseNoFragment (MapBoxEndpoint ++ (cut 0x23 endpoint).1) = Except.ok v →
      v.RawQuery = endpointQuery endpoint := by
    intro v hv
    unfold parseNoFragment at hv
    split at hv
    · cases hv
    · split at hv
      · rename_i hstar
        have hlen := congrArg List.length hstar
        have hm : MapBoxEndpoint.length = 23 := by decide
        simp only [List.length_append, hm, List.length_singleton] at hlen
        omega
      · rw [scanScheme_MapBoxEndpoint] at hv
        simp only at hv
        rw [parseAfterScheme_RawQuery _ _ v hv, cut_prepend 0x3F _ _ h3F]
        rfl
  unfold parseURL at h
  rw [cut_prepend 0x23 _ _ h23] at h
  simp only at h
  cases hp : parseNoFragment (MapBoxEndpoint ++ (cut 0x23 endpoint).1) with
  | error e => rw [hp] at h; cases h
  | ok v =>
    rw [hp] at h
    simp only at h
    split at h
    · simp only [Except.ok.injEq] at h
      rw [← h]
      exact hq v hp
    · split at h
      · cases h
      · simp only [Except.ok.injEq] at h
        rw [← h]
        exact hq v hp

/-- C5, as amended. For every client holding an access token `tok` and every
endpoint (both sequences of bytes), the URL of the request `Do` hands to the
transport has the query parameter `access_token` with value `tok`, and every
query parameter of the endpoint path that `net/url` accepts (a pair without
semicolon whose key and value are validly percent-encoded) is still present
with its value; the query holds nothing else. -/
theorem Do_merges_access_token (c : Client) (d : Transport) (method endpoint : GoString)
    (payload : Option GoString) (contentType : GoString) (tok : GoString) (req : Request)
    (htok : c.AccessToken = some tok)
    (hsent : (c.Do d method endpoint payload contentType).sent = some req)
    (hep : IsBytes endpoint) (htb : IsBytes tok) :
    (str "access_token", tok) ∈ queryPairs req.URL.RawQuery
      ∧ (∀ p, p ∈ queryPairs (endpointQuery endpoint) → p ∈ queryPairs req.URL.RawQuery)
      ∧ (∀ p, p ∈ queryPairs req.URL.RawQuery →
          p ∈ queryPairs (endpointQuery endpoint) ∨ p = (str "access_token", tok)) := by
  rw [Do_sent] at hsent
  cases hb : c.buildRequest method (MapBoxEndpoint ++ endpoint) payload contentType with
  | error e => rw [hb] at hsent; cases hsent
  | ok r =>
    rw [hb] at hsent
    simp only [Except.toOption, Option.some.injEq] at hsent
    subst hsent
    obtain ⟨u, hu, hr⟩ := buildRequest_ok c method _ payload contentType r hb
    have hq : r.URL.RawQuery
        = ((parseQuery (endpointQuery endpoint)).Add (str "access_token") tok).Encode := by
      rw [hr, htok, parseURL_RawQuery endpoint u hu]
    have hbq : IsBytes (endpointQuery endpoint) := fun x hx =>
      hep x ((mem_cut 0x23 endpoint x).1 ((mem_cut 0x3F _ x).2 hx))
    have hname : IsBytes (str "access_token") := by
      unfold IsBytes
      decide
    have hall : ∀ p, p ∈ ((parseQuery (endpointQuery endpoint)).Add (str "access_token")
        tok).pairs → IsBytes p.1 ∧ IsBytes p.2 := by
      intro p hp
      rcases (mem_pairs_Add _ _ _ p).1 hp with h | h
      · exact parseQuery_bytes _ hbq p h
      · subst h
        exact ⟨hname, htb⟩
    have hmem : ∀ p, p ∈ queryPairs r.URL.RawQuery
        ↔ p ∈ queryPairs (endpointQuery endpoint) ∨ p = (str "access_token", tok) := by
      intro p
      rw [hq, mem_queryPairs_Encode _ hall, mem_pairs_Add]
      rfl
    exact ⟨(hmem _).2 (Or.inr rfl), fun p hp => (hmem p).2 (Or.inl hp), fun p hp => (hmem p).1 hp⟩

/-- Witness for C5 as amended: the token `test-token` on the endpoint
`tokens/v2/user?limit=5`. -/
theorem Do_merges_access_token_witness :
    (str "access_token", str "test-token")
        ∈ queryPairs (str "access_token=test-token&limit=5")
      ∧ (∀ p, p ∈ queryPairs (endpointQuery (str "tokens/v2/user?limit=5")) →
          p ∈ queryPairs (str "access_token=test-token&limit=5"))
      ∧ (∀ p, p ∈ queryPairs (str "access_token=test-token&limit=5") →
          p ∈ queryPairs (endpointQuery (str "tokens/v2/user?limit=5"))
            ∨ p = (str "access_token", str "test-token")) :=
  Do_merges_access_token sampleClient (answering (sampleResponse 200 "[]")) (str "GET")
    (str "tokens/v2/user?limit=5") none (str "application/json") (str "test-token")
    { sampleRequest "GET" with
      URL := { sampleURL with RawQuery := str "access_token=test-token&limit=5" } }
    rfl (by decide) (by unfold IsBytes; decide) (by unfold IsBytes; decide)

/-- C5 fails as stated, at two inputs. On the endpoint
`tokens/v2/user?note=100%&limit=5` the parameter `note`, whose value is not a
valid percent-encoding, is gone from the request; on the endpoint
`tokens/v2/user?q=a;b` the parameter `q`, whose value holds a semicolon, is
gone from the request. -/
theorem Do_merges_access_token_counterexample :
    ((sampleClient.Do (answering (sampleResponse 200 "[]")) (str "GET")
        (str "tokens/v2/user?note=100%&limit=5") none (str "application/json")).sent.map
          fun r => r.URL.RawQuery)
      = some (str "access_token=test-token&limit=5")
    ∧ (queryPairs (str "access_token=test-token&limit=5")).map Prod.fst
      = [str "access_token", str "limit"]
    ∧ ((sampleClient.Do (answering (sampleResponse 200 "[]")) (str "GET")
        (str "tokens/v2/user?q=a;b") none (str "application/json")).sent.map
          fun r => r.URL.RawQuery)
      = some (str "access_token=test-token")
    ∧ (queryPairs (str "access_token=test-token")).map Prod.fst = [str "access_token"] := by
  refine ⟨?_, ?_, ?_, ?_⟩ <;> decide


/-! ## The fuel of the JSON parser -/

/-- Skipping white space does not lengthen the input. -/
theorem skipWS_length (s : GoString) : (skipWS s).length ≤ s.length := by
  induction s with
  | nil => exact le_refl _
  | cons c s ih =>
    rw [skipWS]
    split
    · simp only [List.length_cons]; omega
    · exact le_refl _

/-- What `emit` returns comes from what it was given. -/
theorem emit_eq_some (out : GoString) (r : Option (GoString × GoString)) (t rest : GoString)
    (h : emit out r = some (t, rest)) : ∃ t1, r = some (t1, rest) := by
  cases r with
  | none => cases h
  | some p =>
    simp only [emit, Option.map_some', Option.some.injEq, Prod.mk.injEq] at h
    exact ⟨p.1, by rw [← h.2]⟩

/-- A string literal ends with a quote: scanning it consumes input. -/
theorem unquoteFrom_length (s : GoString) :
    ∀ (k : Nat) (t rest : GoString), unquoteFrom k s = some (t, rest) →
      rest.length + k < s.length := by
  induction s with
  | nil => intro k t rest h; rw [unquoteFrom] at h; cases h
  | cons c s ih =>
    intro k t rest h
    cases k with
    | succ k =>
      rw [unquoteFrom] at h
      have := ih k t rest h
      simp only [List.length_cons]
      omega
    | zero =>
      rw [unquoteFrom.eq_def] at h
      simp only at h
      simp only [List.length_cons]
      split at h
      · cases h; omega
      · split at h
        · split at h
          · cases h
          · split at h
            · split at h
              · cases h
              · split at h
                · split at h
                  · split at h
                    · obtain ⟨t1, h1⟩ := emit_eq_some _ _ _ _ h
                      have := ih _ _ _ h1
                      omega
                    · obtain ⟨t1, h1⟩ := emit_eq_some _ _ _ _ h
                      have := ih _ _ _ h1
                      omega
                  · obtain ⟨t1, h1⟩ := emit_eq_some _ _ _ _ h
                    have := ih _ _ _ h1
                    omega
                · obtain ⟨t1, h1⟩ := emit_eq_some _ _ _ _ h
                  have := ih _ _ _ h1
                  omega
            · split at h
              · obtain ⟨t1, h1⟩ := emit_eq_some _ _ _ _ h
                have := ih _ _ _ h1
                omega
              · cases h
        · split at h
          · cases h
          · split at h
            · obtain ⟨t1, h1⟩ := emit_eq_some _ _ _ _ h
              have := ih _ _ _ h1
              omega
            · obtain ⟨t1, h1⟩ := emit_eq_some _ _ _ _ h
              have := ih _ _ _ h1
              omega

/-- The digits split off and the remainder make up the input. -/
theorem spanDigits_length (s : GoString) : (spanDigits s).2.length ≤ s.length := by
  induction s with
  | nil => exact le_refl _
  | cons c s ih =>
    rw [spanDigits]
    split
    · simp only [List.length_cons]; omega
    · exact le_refl _

/-- A number has at least one digit: scanning it consumes input. -/
theorem scanNumber_length (s lit rest : GoString) (h : scanNumber s = some (lit, rest)) :
    rest.length < s.length := by
  unfold scanNumber at h
  simp only at h
  have hint : ∀ x ip r1, scanInt x = some (ip, r1) → r1.length < x.length := by
    intro x ip r1 hx
    unfold scanInt at hx
    split at hx
    · rename_i c s1
      split at hx
      · cases hx; simp only [List.length_cons]; omega
      · split at hx
        · cases hx
          have := spanDigits_length s1
          simp only [List.length_cons]
          omega
        · cases hx
    · cases hx
  have hfrac : ∀ x fp r2, scanFrac x = some (fp, r2) → r2.length ≤ x.length := by
    intro x fp r2 hx
    unfold scanFrac at hx
    split at hx
    · rename_i dch s1
      split at hx
      · split at hx
        · cases hx
        · cases hx
          have := spanDigits_length s1
          simp only [List.length_cons]
          omega
      · cases hx; exact le_refl _
    · cases hx; exact le_refl _
  have hexp : ∀ x ep r3, scanExp x = some (ep, r3) → r3.length ≤ x.length := by
    intro x ep r3 hx
    unfold scanExp at hx
    split at hx
    · rename_i e s1
      split at hx
      · split at hx
        · rename_i g s2
          split at hx
          · split at hx
            · cases hx
            · cases hx
              have := spanDigits_length s2
              simp only [List.length_cons]
              omega
          · split at hx
            · cases hx
            · cases hx
              have := spanDigits_length (g :: s2)
              simp only [List.length_cons] at this ⊢
              omega
        · cases hx
      · cases hx; exact le_refl _
    · cases hx; exact le_refl _
  generalize (match s with
    | c :: _ => if c = 0x2D then [c] else []
    | [] => []) = sign at h
  split at h
  · cases h
  · rename_i ip r1 hi
    split at h
    · cases h
    · rename_i fp r2 hf
      split at h
      · cases h
      · rename_i ep r3 he
        cases h
        have h1 := hint _ _ _ hi
        have h2 := hfrac _ _ _ hf
        have h3 := hexp _ _ _ he
        have h4 : (List.drop sign.length s).length ≤ s.length := by
          rw [List.length_drop]
          omega
        omega

/-- What remains after a prefix is not longer than the input. -/
theorem stripPrefix_length (pre s r : GoString) (h : stripPrefix pre s = some r) :
    r.length ≤ s.length := by
  induction pre generalizing s with
  | nil => rw [stripPrefix] at h; cases h; exact le_refl _
  | cons p pre ih =>
    cases s with
    | nil => rw [stripPrefix] at h; cases h
    | cons c s =>
      rw [stripPrefix] at h
      split at h
      · have := ih s h
        simp only [List.length_cons]
        omega
      · cases h

/-- A parsed value, member list or element list consumes input. -/
theorem parse_length (f : Nat) :
    (∀ d s v rest, parseValue f d s = some (v, rest) → rest.length < s.length)
    ∧ (∀ d s ms rest, parseMembers f d s = some (ms, rest) → rest.length < s.length)
    ∧ (∀ d s es rest, parseElems f d s = some (es, rest) → rest.length < s.length) := by
  induction f with
  | zero =>
    refine ⟨?_, ?_, ?_⟩
    · intro d s v rest h; rw [parseValue] at h; cases h
    · intro d s ms rest h; rw [parseMembers] at h; cases h
    · intro d s es rest h; rw [parseElems] at h; cases h
  | succ f ih =>
    obtain ⟨ihV, ihM, ihE⟩ := ih
    refine ⟨?_, ?_, ?_⟩
    · intro d s v rest h
      cases s with
      | nil => rw [parseValue] at h; cases h
      | cons c s =>
        rw [parseValue] at h
        simp only [List.length_cons]
        split at h
        · split at h
          · cases h
          · split at h
            · cases h
            · rename_i d1 s1 hsk
              have hl := skipWS_length s
              rw [hsk] at hl
              simp only [List.length_cons] at hl
              split at h
              · cases h; omega
              · cases hm : parseMembers f (d + 1) (d1 :: s1) with
                | none => rw [hm] at h; cases h
                | some p =>
                  rw [hm] at h
                  cases h
                  have := ihM _ _ _ _ hm
                  simp only [List.length_cons] at this
                  omega
        · split at h
          · split at h
            · cases h
            · split at h
              · cases h
              · rename_i d1 s1 hsk
                have hl := skipWS_length s
                rw [hsk] at hl
                simp only [List.length_cons] at hl
                split at h
                · cases h; omega
                · cases hm : parseElems f (d + 1) (d1 :: s1) with
                  | none => rw [hm] at h; cases h
                  | some p =>
                    rw [hm] at h
                    cases h
                    have := ihE _ _ _ _ hm
                    simp only [List.length_cons] at this
                    omega
          · split at h
            · cases hu : unquoteFrom 0 s with
              | none => rw [hu] at h; cases h
              | some p =>
                rw [hu] at h
                cases h
                have := unquoteFrom_length s 0 p.1 p.2 hu
                omega
            · split at h
              · cases hu : scanNumber (c :: s) with
                | none => rw [hu] at h; cases h
                | some p =>
                  rw [hu] at h
                  cases h
                  have := scanNumber_length (c :: s) p.1 p.2 hu
                  simp only [List.length_cons] at this
                  omega
              · split at h
                · cases hu : stripPrefix [0x72, 0x75, 0x65] s with
                  | none => rw [hu] at h; cases h
                  | some p =>
                    have hlen := stripPrefix_length _ s p hu
                    rw [hu] at h
                    cases h
                    omega
                · split at h
                  · cases hu : stripPrefix [0x61, 0x6C, 0x73, 0x65] s with
                    | none => rw [hu] at h; cases h
                    | some p =>
                      have hlen := stripPrefix_length _ s p hu
                      rw [hu] at h
                      cases h
                      omega
                  · split at h
                    · cases hu : stripPrefix [0x75, 0x6C, 0x6C] s with
                      | none => rw [hu] at h; cases h
                      | some p =>
                        have hlen := stripPrefix_length _ s p hu
                        rw [hu] at h
                        cases h
                        omega
                    · cases h
    · intro d s ms rest h
      cases s with
      | nil => rw [parseMembers] at h; cases h
      | cons q s =>
        rw [parseMembers] at h
        simp only [List.length_cons]
        split at h
        · split at h
          · cases h
          · rename_i key s1 hu
            have h1 := unquoteFrom_length s 0 key s1 hu
            split at h
            · cases h
            · rename_i colon s2 hsk
              have hl := skipWS_length s1
              rw [hsk] at hl
              simp only [List.length_cons] at hl
              split at h
              · split at h
                · cases h
                · rename_i v s3 hv
                  have h2 := ihV _ _ _ _ hv
                  have h3 := skipWS_length s2
                  split at h
                  · cases h
                  · rename_i d1 s4 hsk4
                    have hl4 := skipWS_length s3
                    rw [hsk4] at hl4
                    simp only [List.length_cons] at hl4
                    split at h
                    · cases hm : parseMembers f d (skipWS s4) with
                      | none => rw [hm] at h; cases h
                      | some p =>
                        rw [hm] at h
                        cases h
                        have h5 := ihM _ _ _ _ hm
                        have h6 := skipWS_length s4
                        omega
                    · split at h
                      · cases h; omega
                      · cases h
              · cases h
        · cases h
    · intro d s es rest h
      rw [parseElems] at h
      split at h
      · cases h
      · rename_i v s1 hv
        have h2 := ihV _ _ _ _ hv
        split at h
        · cases h
        · rename_i d1 s2 hsk
          have hl := skipWS_length s1
          rw [hsk] at hl
          simp only [List.length_cons] at hl
          split at h
          · cases hm : parseElems f d (skipWS s2) with
            | none => rw [hm] at h; cases h
            | some p =>
              rw [hm] at h
              cases h
              have h5 := ihE _ _ _ _ hm
              have h6 := skipWS_length s2
              omega
          · split at h
            · cases h; omega
            · cases h

/-- Beyond twice the length of the input, one more unit of fuel changes nothing. -/
theorem parse_fuel_succ (f : Nat) :
    (∀ d s, 2 * s.length + 1 ≤ f → parseValue (f + 1) d s = parseValue f d s)
    ∧ (∀ d s, 2 * s.length + 2 ≤ f → parseMembers (f + 1) d s = parseMembers f d s)
    ∧ (∀ d s, 2 * s.length + 2 ≤ f → parseElems (f + 1) d s = parseElems f d s) := by
  induction f with
  | zero =>
    refine ⟨?_, ?_, ?_⟩ <;> intro d s h <;> omega
  | succ g ih =>
    obtain ⟨ihV, ihM, ihE⟩ := ih
    refine ⟨?_, ?_, ?_⟩
    · intro d s hb
      cases s with
      | nil => rw [parseValue, parseValue]
      | cons c s =>
        rw [parseValue, parseValue]
        simp only [List.length_cons] at hb
        cases hsk : skipWS s with
        | nil => rfl
        | cons d1 s1 =>
          have hl := skipWS_length s
          rw [hsk] at hl
          simp only [List.length_cons] at hl
          have hM := ihM (d + 1) (d1 :: s1) (by simp only [List.length_cons]; omega)
          have hE := ihE (d + 1) (d1 :: s1) (by simp only [List.length_cons]; omega)
          simp only [hM, hE]
    · intro d s hb
      cases s with
      | nil => rw [parseMembers, parseMembers]
      | cons q s =>
        rw [parseMembers, parseMembers]
        simp only [List.length_cons] at hb
        cases hu : unquoteFrom 0 s with
        | none => rfl
        | some p =>
          obtain ⟨key, s1⟩ := p
          have h1 := unquoteFrom_length s 0 key s1 hu
          simp only
          cases hsk : skipWS s1 with
          | nil => rfl
          | cons colon s2 =>
            have hl := skipWS_length s1
            rw [hsk] at hl
            simp only [List.length_cons] at hl
            have h3 := skipWS_length s2
            have hV := ihV d (skipWS s2) (by omega)
            simp only [hV]
            cases hv : parseValue g d (skipWS s2) with
            | none => rfl
            | some pv =>
              obtain ⟨v, s3⟩ := pv
              have h4 := (parse_length g).1 _ _ _ _ hv
              simp only
              cases hsk3 : skipWS s3 with
              | nil => rfl
              | cons d1 s4 =>
                have hl3 := skipWS_length s3
                rw [hsk3] at hl3
                simp only [List.length_cons] at hl3
                have h5 := skipWS_length s4
                have hM := ihM d (skipWS s4) (by omega)
                simp only [hM]
    · intro d s hb
      rw [parseElems, parseElems]
      have hV := ihV d s (by omega)
      simp only [hV]
      cases hv : parseValue g d s with
      | none => rfl
      | some pv =>
        obtain ⟨v, s1⟩ := pv
        have h4 := (parse_length g).1 _ _ _ _ hv
        simp only
        cases hsk : skipWS s1 with
        | nil => rfl
        | cons d1 s2 =>
          have hl := skipWS_length s1
          rw [hsk] at hl
          simp only [List.length_cons] at hl
          have h5 := skipWS_length s2
          have hE := ihE d (skipWS s2) (by omega)
          simp only [hE]

/-- The fuel `parseJSON` gives the parser is enough: with any amount of fuel
beyond it the parser returns the same result. -/
theorem parseValue_fuel (data : GoString) (extra : Nat) :
    parseValue (2 * data.length + 2 + extra) 0 (skipWS data)
      = parseValue (2 * data.length + 2) 0 (skipWS data) := by
  induction extra with
  | zero => rfl
  | succ n ih =>
    have h := skipWS_length data
    rw [← ih]
    exact (parse_fuel_succ (2 * data.length + 2 + n)).1 0 (skipWS data) (by omega)

/-! ## When a request is sent -/

/-- After the scheme of an absolute endpoint come the authority `api.mapbox.com`
and the path. -/
theorem parseHierarchy_mapbox (path : GoString) (force : Bool) (rawQuery : GoString) :
    parseHierarchy (str "https") (str "//api.mapbox.com/" ++ path) force rawQuery
      = (match unescape Encoding.path (0x2F :: path) with
        | none => Except.error (GoErr.lib "invalid URL escape")
        | some p =>
          Except.ok { Scheme := str "https", Opaque := [], Host := str "api.mapbox.com", Path := p,
                      ForceQuery := force, RawQuery := rawQuery, Fragment := [] }) := by
  have h0 : str "//api.mapbox.com/" ++ path
      = 0x2F :: 0x2F :: (str "api.mapbox.com" ++ 0x2F :: path) := by
    have : str "//api.mapbox.com/" = 0x2F :: 0x2F :: (str "api.mapbox.com" ++ [0x2F]) := by decide
    rw [this]
    simp only [List.cons_append, List.append_assoc, List.nil_append]
  have hs : str "https" ≠ [] := by decide
  have hno : 0x2F ∉ str "api.mapbox.com" := by decide
  have hauth : parseAuthority (str "api.mapbox.com") = Except.ok (str "api.mapbox.com") := by
    decide
  unfold parseHierarchy
  rw [h0]
  simp only [List.head?_cons, ne_eq, not_true_eq_false, false_and, if_false, List.take_succ_cons,
    List.take_zero, List.drop_succ_cons, List.drop_zero, cut_append 0x2F _ _ hno, hs,
    not_false_eq_true, decide_True, Bool.true_or, Bool.true_and, if_true, hauth]

/-- When the only `?` of a text is its last byte, the text before the cut is the
text without its last byte. -/
theorem dropLast_single_last (l : GoString) (h1 : l.getLast? = some 0x3F)
    (h2 : l.count 0x3F = 1) : l.dropLast = (cut 0x3F l).1 := by
  have hl : l.dropLast ++ [0x3F] = l := List.dropLast_append_getLast? 0x3F h1
  have hc : List.count 0x3F l.dropLast = 0 := by
    rw [← hl, List.count_append] at h2
    simp only [List.count_cons_self, List.count_nil] at h2
    omega
  have hno : 0x3F ∉ l.dropLast := List.count_eq_zero.1 hc
  have := cut_append 0x3F l.dropLast [] hno
  rw [hl] at this
  rw [this]

/-- Whether a single `?` ends an absolute endpoint is decided by the endpoint. -/
theorem force_mapbox (e1 : GoString) :
    ((str "//api.mapbox.com/" ++ e1).getLast? = some 0x3F
        ∧ (str "//api.mapbox.com/" ++ e1).count 0x3F = 1)
      ↔ (e1.getLast? = some 0x3F ∧ e1.count 0x3F = 1) := by
  have hc : List.count 0x3F (str "//api.mapbox.com/") = 0 := by decide
  have hlast : (str "//api.mapbox.com/").getLast? = some 0x2F := by decide
  rw [List.count_append, hc, Nat.zero_add, List.getLast?_append, hlast]
  cases h : e1.getLast? with
  | none =>
    simp only [Option.or, Option.some.injEq, Nat.reduceEqDiff, false_and, reduceCtorEq]
  | some x => simp only [Option.or]

/-- After the scheme of an absolute endpoint: the query is cut off, the rest is
the authority `api.mapbox.com` and the path. -/
theorem parseAfterScheme_mapbox (e1 : GoString) :
    parseAfterScheme (str "https") (str "//api.mapbox.com/" ++ e1)
      = (match unescape Encoding.path (0x2F :: (cut 0x3F e1).1) with
        | none => Except.error (GoErr.lib "invalid URL escape")
        | some p =>
          Except.ok { Scheme := str "https", Opaque := [], Host := str "api.mapbox.com", Path := p,
                      ForceQuery := decide (e1.getLast? = some 0x3F ∧ e1.count 0x3F = 1),
                      RawQuery := (cut 0x3F e1).2.1, Fragment := [] }) := by
  have h3F : 0x3F ∉ str "//api.mapbox.com/" := by decide
  unfold parseAfterScheme
  split
  · rename_i hf
    have hf1 := (force_mapbox e1).1 hf
    have hne : e1 ≠ [] := by
      intro h0
      rw [h0] at hf1
      cases hf1.1
    rw [List.dropLast_append_of_ne_nil _ hne, parseHierarchy_mapbox,
      dropLast_single_last e1 hf1.1 hf1.2, cut_single_last e1 hf1.1 hf1.2]
    simp only [hf1, and_self, decide_True]
  · rename_i hf
    have hf1 : ¬ (e1.getLast? = some 0x3F ∧ e1.count 0x3F = 1) :=
      fun h => hf ((force_mapbox e1).2 h)
    rw [cut_prepend 0x3F _ _ h3F, parseHierarchy_mapbox]
    simp only [hf1, decide_False]

/-- An absolute endpoint without fragment, parsed. -/
theorem parseNoFragment_mapbox (e1 : GoString) :
    parseNoFragment (MapBoxEndpoint ++ e1)
      = (if containsCTLByte e1 then
          Except.error (GoErr.lib "net/url: invalid control character in URL")
        else
          match unescape Encoding.path (0x2F :: (cut 0x3F e1).1) with
          | none => Except.error (GoErr.lib "invalid URL escape")
          | some p =>
            Except.ok { Scheme := str "https", Opaque := [], Host := str "api.mapbox.com",
                        Path := p,
                        ForceQuery := decide (e1.getLast? = some 0x3F ∧ e1.count 0x3F = 1),
                        RawQuery := (cut 0x3F e1).2.1, Fragment := [] }) := by
  have hctl : containsCTLByte MapBoxEndpoint = false := by decide
  have hlow : toLower (str "https") = str "https" := by decide
  have hstar : MapBoxEndpoint ++ e1 ≠ [0x2A] := by
    intro h
    have hlen := congrArg List.length h
    have hm : MapBoxEndpoint.length = 23 := by decide
    simp only [List.length_append, hm, List.length_singleton] at hlen
    omega
  have hc : containsCTLByte (MapBoxEndpoint ++ e1) = containsCTLByte e1 := by
    unfold containsCTLByte at hctl ⊢
    rw [List.any_append, hctl, Bool.false_or]
  unfold parseNoFragment
  rw [hc, if_neg hstar, scanScheme_MapBoxEndpoint]
  simp only [hlow, parseAfterScheme_mapbox]

/-- The URL of an absolute endpoint, parsed: parsing fails exactly on a control
byte before the fragment or an invalid percent escape in the path or fragment. -/
theorem parseURL_MapBoxEndpoint (endpoint : GoString) :
    parseURL (MapBoxEndpoint ++ endpoint)
      = (if containsCTLByte (cut 0x23 endpoint).1 then
          Except.error (GoErr.wrapped (str "parse: ")
            (GoErr.lib "net/url: invalid control character in URL") [])
        else
          match unescape Encoding.path (0x2F :: (cut 0x3F (cut 0x23 endpoint).1).1) with
          | none => Except.error (GoErr.wrapped (str "parse: ") (GoErr.lib "invalid URL escape") [])
          | some p =>
            match unescape Encoding.fragment (cut 0x23 endpoint).2.1 with
            | none =>
              Except.error (GoErr.wrapped (str "parse: ") (GoErr.lib "invalid URL escape") [])
            | some frag =>
              Except.ok { Scheme := str "https", Opaque := [], Host := str "api.mapbox.com",
                          Path := p,
                          ForceQuery := decide ((cut 0x23 endpoint).1.getLast? = some 0x3F
                            ∧ (cut 0x23 endpoint).1.count 0x3F = 1),
                          RawQuery := endpointQuery endpoint, Fragment := frag }) := by
  have h23 : 0x23 ∉ MapBoxEndpoint := by decide
  unfold parseURL
  rw [cut_prepend 0x23 _ _ h23]
  simp only [parseNoFragment_mapbox]
  by_cases hc : containsCTLByte (cut 0x23 endpoint).1 = true
  · simp only [hc, if_true]
  · simp only [hc, if_false, Bool.false_eq_true]
    cases hp : unescape Encoding.path (0x2F :: (cut 0x3F (cut 0x23 endpoint).1).1) with
    | none => rfl
    | some p =>
      simp only
      by_cases hfrag : (cut 0x23 endpoint).2.1 = []
      · rw [if_pos hfrag, hfrag]
        rfl
      · rw [if_neg hfrag]
        cases hf : unescape Encoding.fragment (cut 0x23 endpoint).2.1 with
        | none => rfl
        | some frag => rfl

/-- `Do` hands a request to the transport exactly when the method is a token
(or empty), the endpoint has no control byte before its fragment, and the
percent escapes in its path and in its fragment are valid. -/
theorem Do_sends_iff (c : Client) (d : Transport) (method endpoint : GoString)
    (payload : Option GoString) (contentType : GoString) :
    (∃ req, (c.Do d method endpoint payload contentType).sent = some req)
      ↔ (validMethod (if method = [] then str "GET" else method) = true
        ∧ containsCTLByte (cut 0x23 endpoint).1 = false
        ∧ (unescape Encoding.path (0x2F :: (cut 0x3F (cut 0x23 endpoint).1).1)).isSome = true
        ∧ (unescape Encoding.fragment (cut 0x23 endpoint).2.1).isSome = true) := by
  rw [Do_sent]
  unfold Client.buildRequest newRequest
  rw [parseURL_MapBoxEndpoint]
  by_cases hv : validMethod (if method = [] then str "GET" else method) = true
  · rw [if_neg (not_not.2 hv)]
    by_cases hc : containsCTLByte (cut 0x23 endpoint).1 = true
    · simp [hc, Except.toOption]
    · cases hp : unescape Encoding.path (0x2F :: (cut 0x3F (cut 0x23 endpoint).1).1) with
      | none => simp [hc, hp, Except.toOption]
      | some p =>
        cases hf : unescape Encoding.fragment (cut 0x23 endpoint).2.1 with
        | none => simp [hc, hp, hf, Except.toOption]
        | some frag => simp [hv, hc, hp, hf, Except.toOption]
  · rw [if_pos hv]
    simp [hv, Except.toOption]
end Mapbox
